import Mathlib

/-!
Verification development for the HackMerlin solver repository.

This file embeds the clue-acquisition and word-reconstruction engine of the
repository (the top-level modules `response_parser.py`, `prompt_generator.py`,
`hackmerlin_solver.py` and `word_matcher.py`, which form the complete runnable
implementation) as executable Lean definitions, and proves or refutes the
frozen specification claims about it.

Conventions of the embedding:
* Python strings are `List Char` (ASCII is assumed throughout, matching the
  fixed English pattern tables of the source).
* The clue store (a Python dict with string keys and int-or-string values) is
  an association list `Clues` with first-occurrence lookup and
  update-in-place/append-at-end write semantics, mirroring `dict`.
* Python code that can raise (TypeError/IndexError on ill-typed store values)
  is modelled in `Except Unit`; `try/except` blocks in the source collapse the
  exception exactly where the source catches it.
* The regular expressions of the parser are transcribed into a small regex
  AST (`RE`) and run by a backtracking matcher (`matchRE`) with Python
  `re.search` semantics: leftmost start, greedy quantifiers with backtracking,
  first alternative preferred.  `$` is modelled as end-of-input (the source
  never feeds multi-line answers where Python's before-final-newline nuance
  would differ, and every theorem below that quantifies over answers containing
  a newline is unaffected because the patterns involved require a digit).
-/

/-- ASCII lowercase conversion modeling Python `str.lower` on the ASCII
range, as an explicit table over the uppercase letters. -/
def lowerChar (c : Char) : Char :=
  match c with
  | 'A' => 'a' | 'B' => 'b' | 'C' => 'c' | 'D' => 'd' | 'E' => 'e' | 'F' => 'f'
  | 'G' => 'g' | 'H' => 'h' | 'I' => 'i' | 'J' => 'j' | 'K' => 'k' | 'L' => 'l'
  | 'M' => 'm' | 'N' => 'n' | 'O' => 'o' | 'P' => 'p' | 'Q' => 'q' | 'R' => 'r'
  | 'S' => 's' | 'T' => 't' | 'U' => 'u' | 'V' => 'v' | 'W' => 'w' | 'X' => 'x'
  | 'Y' => 'y' | 'Z' => 'z'
  | c => c

/-- Python `\s` / `str.strip` whitespace: space, tab, newline, carriage return,
vertical tab, form feed. -/
def isPySpace (c : Char) : Bool :=
  c = ' ' || c = '\t' || c = '\n' || c = '\r' || c = '\x0b' || c = '\x0c'

/-- ASCII letter, the class `[a-zA-Z]`. -/
def isAsciiAlpha (c : Char) : Bool :=
  ('a' ≤ c && c ≤ 'z') || ('A' ≤ c && c ≤ 'Z')

/-- Value of a nonempty all-digit string, as Python `int` computes it. -/
def digitsToNat (l : List Char) : Nat :=
  l.foldl (fun a c => 10 * a + (c.toNat - 48)) 0

/-- Python substring test `needle in hay`. -/
def hasSub (needle : List Char) : List Char → Bool
  | [] => needle.isEmpty
  | c :: t => needle.isPrefixOf (c :: t) || hasSub needle t

/-- Python `str.strip()`: drop leading and trailing whitespace. -/
def pyStrip (l : List Char) : List Char :=
  ((l.dropWhile isPySpace).reverse.dropWhile isPySpace).reverse

/-- Python `str.startswith` on whole strings. -/
def strStartsWith (s p : String) : Bool :=
  p.toList.isPrefixOf s.toList

/-- Worker for `replaceAll`, structurally recursive on a fuel bound; every
step consumes at least one character, so fuel equal to the input length is
never exhausted. -/
def replaceAllFuel (pat rep : List Char) : Nat → List Char → List Char
  | _, [] => []
  | 0, l => l
  | fuel + 1, c :: t =>
    if pat ≠ [] ∧ pat.isPrefixOf (c :: t) then
      rep ++ replaceAllFuel pat rep fuel ((c :: t).drop pat.length)
    else
      c :: replaceAllFuel pat rep fuel t

/-- Python `str.replace(pat, rep)`: left-to-right, non-overlapping, the
replacement is not rescanned. -/
def replaceAll (pat rep s : List Char) : List Char :=
  replaceAllFuel pat rep s.length s

/-- Character classes appearing in the source's regular expressions. -/
inductive CharCls where
  | digit | space | alpha | wordc | quote | commaSpace | notNL
  deriving DecidableEq, Repr

/-- Meaning of each character class. -/
def CharCls.eval : CharCls → Char → Bool
  | .digit, c => c.isDigit
  | .space, c => isPySpace c
  | .alpha, c => isAsciiAlpha c
  | .wordc, c => isAsciiAlpha c || c.isDigit || c = '_'
  | .quote, c => c = '\'' || c = '"'
  | .commaSpace, c => c = ',' || isPySpace c
  | .notNL, c => c ≠ '\n'

/-- Regex AST covering the constructs used by the source's patterns:
literals (case-sensitive and case-insensitive), character classes,
concatenation, alternation, greedy `?`, greedy `+` and `*` over a class,
numbered capturing groups, end anchor, and the empty regex. -/
inductive RE where
  | eps
  | lit (c : Char)
  | cilit (c : Char)
  | cls (cc : CharCls)
  | seq (r1 r2 : RE)
  | alt (r1 r2 : RE)
  | opt (r : RE)
  | rep1 (cc : CharCls)
  | rep0 (cc : CharCls)
  | grp (i : Nat) (r : RE)
  | eos
  deriving Repr

/-- Captured groups: group number to captured text. -/
abbrev Caps := List (Nat × List Char)

/-- Record a capture, overwriting an earlier capture of the same group. -/
def upsertCap (caps : Caps) (i : Nat) (v : List Char) : Caps :=
  match caps with
  | [] => [(i, v)]
  | (j, w) :: t => if j = i then (i, v) :: t else (j, w) :: upsertCap t i v

/-- First success of `f` over a list of candidates. -/
def firstSome (f : Nat → Option Caps) : List Nat → Option Caps
  | [] => none
  | n :: t => (f n).orElse fun _ => firstSome f t

/-- Candidate consumption lengths for a greedy repetition: longest first,
down to the minimum `lo` (empty when the available run is shorter than `lo`). -/
def lensDesc (hi lo : Nat) : List Nat :=
  (List.range' lo (hi + 1 - lo)).reverse

/-- Backtracking matcher in continuation-passing style, anchored at the start
of `s`.  Mirrors Python `re` semantics for the constructs of `RE`. -/
def matchRE : RE → List Char → Caps → (List Char → Caps → Option Caps) → Option Caps
  | .eps, s, caps, k => k s caps
  | .lit c, s, caps, k =>
    match s with
    | [] => none
    | x :: rest => if x = c then k rest caps else none
  | .cilit c, s, caps, k =>
    match s with
    | [] => none
    | x :: rest => if lowerChar x = c then k rest caps else none
  | .cls cc, s, caps, k =>
    match s with
    | [] => none
    | x :: rest => if cc.eval x then k rest caps else none
  | .seq r1 r2, s, caps, k => matchRE r1 s caps (fun s1 c1 => matchRE r2 s1 c1 k)
  | .alt r1 r2, s, caps, k => (matchRE r1 s caps k).orElse fun _ => matchRE r2 s caps k
  | .opt r, s, caps, k => (matchRE r s caps k).orElse fun _ => k s caps
  | .rep1 cc, s, caps, k =>
    firstSome (fun L => k (s.drop L) caps) (lensDesc (s.takeWhile cc.eval).length 1)
  | .rep0 cc, s, caps, k =>
    firstSome (fun L => k (s.drop L) caps) (lensDesc (s.takeWhile cc.eval).length 0)
  | .grp i r, s, caps, k =>
    matchRE r s caps (fun s1 c1 => k s1 (upsertCap c1 i (s.take (s.length - s1.length))))
  | .eos, s, caps, k => if s = [] then k s caps else none

/-- Python `re.search`: try each start position left to right. -/
def reSearch (r : RE) : List Char → Option Caps
  | [] => matchRE r [] [] fun _ caps => some caps
  | x :: t =>
    match matchRE r (x :: t) [] (fun _ caps => some caps) with
    | some caps => some caps
    | none => reSearch r t

/-- Python `re.fullmatch`: anchored at the start, must consume everything. -/
def reFullmatch (r : RE) (s : List Char) : Option Caps :=
  matchRE r s [] fun rest caps => if rest = [] then some caps else none

/-- Syntactic check that every string accepted by the pattern must contain a
digit character (used to show the digit patterns reject digit-free answers). -/
def RE.mand : RE → Bool
  | .eps => false
  | .lit c => c.isDigit
  | .cilit c => c.isDigit
  | .cls cc => cc == .digit
  | .seq r1 r2 => r1.mand || r2.mand
  | .alt r1 r2 => r1.mand && r2.mand
  | .opt _ => false
  | .rep1 cc => cc == .digit
  | .rep0 _ => false
  | .grp _ r => r.mand
  | .eos => false

/-- Concatenation of a list of regexes. -/
def seqAll : List RE → RE
  | [] => .eps
  | [r] => r
  | r :: t => .seq r (seqAll t)

/-- Case-sensitive literal word. -/
def lits (w : String) : List RE := w.toList.map RE.lit

/-- Case-insensitive literal word (pattern stored lowercase). -/
def cilits (w : String) : List RE := w.toList.map RE.cilit

/-- Alternation of a list of regexes, first preferred. -/
def altAll : List RE → RE
  | [] => .eps
  | [r] => r
  | r :: t => .alt r (altAll t)

/-!  Patterns of `ResponseParser._extract_letter_count` (applied to the
lowercased response). -/

/-- Pattern `(\d+)\s*letters?[,\s]`. -/
def patL1 : RE :=
  seqAll ([.grp 1 (.rep1 .digit), .rep0 .space] ++ lits "letter" ++
    [.opt (.lit 's'), .cls .commaSpace])

/-- Pattern `has\s+(\d+)\s*letters?`. -/
def patL2 : RE :=
  seqAll (lits "has" ++ [.rep1 .space, .grp 1 (.rep1 .digit), .rep0 .space] ++
    lits "letter" ++ [.opt (.lit 's')])

/-- Pattern `is\s+(\d+)\s*letters?`. -/
def patL3 : RE :=
  seqAll (lits "is" ++ [.rep1 .space, .grp 1 (.rep1 .digit), .rep0 .space] ++
    lits "letter" ++ [.opt (.lit 's')])

/-- Pattern `word\s+is\s+(\d+)\s*letters?`. -/
def patL4 : RE :=
  seqAll (lits "word" ++ [.rep1 .space] ++ lits "is" ++
    [.rep1 .space, .grp 1 (.rep1 .digit), .rep0 .space] ++ lits "letter" ++ [.opt (.lit 's')])

/-- Pattern `(\d+)\s*letters?$`. -/
def patL5 : RE :=
  seqAll ([.grp 1 (.rep1 .digit), .rep0 .space] ++ lits "letter" ++
    [.opt (.lit 's'), .eos])

/-- Pattern `\s*(\d+)\s*` used with `re.fullmatch` for bare numeric answers. -/
def patBareNum : RE :=
  seqAll [.rep0 .space, .grp 1 (.rep1 .digit), .rep0 .space]

/-- Pattern `\s*[A-Za-z]+\s*` used with `re.fullmatch` for bare letter answers. -/
def patBareAlpha : RE :=
  seqAll [.rep0 .space, .rep1 .alpha, .rep0 .space]

/-- Word-to-number table of `_extract_letter_count`, in source order. -/
def wordToNumber : List (List Char × Nat) :=
  [("zero".toList, 0), ("one".toList, 1), ("two".toList, 2), ("three".toList, 3),
   ("four".toList, 4), ("five".toList, 5), ("six".toList, 6), ("seven".toList, 7),
   ("eight".toList, 8), ("nine".toList, 9), ("ten".toList, 10), ("eleven".toList, 11),
   ("twelve".toList, 12)]

/-- First pattern of a list that matches, returning the designated capture
group (the pattern's last group, as `match.groups()[-1]` reads it). -/
def tryPatterns (pats : List (RE × Nat)) (s : List Char) : Option (List Char) :=
  match pats with
  | [] => none
  | (p, gi) :: t =>
    match reSearch p s with
    | some caps => caps.lookup gi
    | none => tryPatterns t s

/-- Embedding of `ResponseParser._extract_letter_count` (response_parser.py,
lines 95-141): digit patterns on the lowercased response, then the
word-to-number scan excluding "first N letters"/"last N letters" phrases, then
a bare digit fullmatch, then a bare count word. -/
def extract_letter_count (response : List Char) : Option Nat :=
  let rl := response.map lowerChar
  match tryPatterns [(patL1, 1), (patL2, 1), (patL3, 1), (patL4, 1), (patL5, 1)] rl with
  | some ds => some (digitsToNat ds)
  | none =>
    match wordToNumber.findSome? (fun wn =>
        if hasSub (wn.1 ++ " letters".toList) rl &&
           !hasSub ("first ".toList ++ wn.1 ++ " letters".toList) rl &&
           !hasSub ("last ".toList ++ wn.1 ++ " letters".toList) rl
        then some wn.2 else none) with
    | some n => some n
    | none =>
      match (reFullmatch patBareNum rl).bind (fun caps => caps.lookup 1) with
      | some ds => some (digitsToNat ds)
      | none => wordToNumber.findSome? (fun wn => if pyStrip rl = wn.1 then some wn.2 else none)

/-- Cleanup applied to an extracted letters group: drop `", and"` and
`" and "`, strip non-letters, lowercase. -/
def cleanLetters (lg : List Char) : List Char :=
  ((replaceAll " and ".toList [] (replaceAll ", and".toList [] lg)).filter
    isAsciiAlpha).map lowerChar

/-- Optional phrase `(?:of\s+the\s+password\s+)?`, case-insensitive. -/
def optOfThePasswordCI : RE :=
  .opt (seqAll (cilits "of" ++ [.rep1 .space] ++ cilits "the" ++ [.rep1 .space] ++
    cilits "password" ++ [.rep1 .space]))

/-- Patterns of `ResponseParser._extract_first_letters` with the index of the
pattern's last capture group, in source order (IGNORECASE, raw response):
`starts?\s+with\s+['"]([a-zA-Z]+)['"]`,
`begins?\s+with\s+['"]([a-zA-Z]+)['"]`,
`first\s+(\d+)\s+letters?\s+are?\s+['"]([a-zA-Z]+)['"]`,
`first\s+letters?\s+are?\s+['"]([a-zA-Z]+)['"]`,
`first\s+(?:\d+|\w+)\s+letters?\s+are\s+(.+)`,
`first\s+letters?\s+are\s+(.+)`. -/
def firstPatterns : List (RE × Nat) :=
  [(seqAll (cilits "start" ++ [.opt (.cilit 's'), .rep1 .space] ++ cilits "with" ++
      [.rep1 .space, .cls .quote, .grp 1 (.rep1 .alpha), .cls .quote]), 1),
   (seqAll (cilits "begin" ++ [.opt (.cilit 's'), .rep1 .space] ++ cilits "with" ++
      [.rep1 .space, .cls .quote, .grp 1 (.rep1 .alpha), .cls .quote]), 1),
   (seqAll (cilits "first" ++ [.rep1 .space, .grp 1 (.rep1 .digit), .rep1 .space] ++
      cilits "letter" ++ [.opt (.cilit 's'), .rep1 .space] ++ cilits "ar" ++
      [.opt (.cilit 'e'), .rep1 .space, .cls .quote, .grp 2 (.rep1 .alpha), .cls .quote]), 2),
   (seqAll (cilits "first" ++ [.rep1 .space] ++ cilits "letter" ++
      [.opt (.cilit 's'), .rep1 .space] ++ cilits "ar" ++
      [.opt (.cilit 'e'), .rep1 .space, .cls .quote, .grp 1 (.rep1 .alpha), .cls .quote]), 1),
   (seqAll (cilits "first" ++ [.rep1 .space, .alt (.rep1 .digit) (.rep1 .wordc), .rep1 .space] ++
      cilits "letter" ++ [.opt (.cilit 's'), .rep1 .space] ++ cilits "are" ++
      [.rep1 .space, .grp 1 (.rep1 .notNL)]), 1),
   (seqAll (cilits "first" ++ [.rep1 .space] ++ cilits "letter" ++
      [.opt (.cilit 's'), .rep1 .space] ++ cilits "are" ++
      [.rep1 .space, .grp 1 (.rep1 .notNL)]), 1)]

/-- Embedding of `ResponseParser._extract_first_letters` (response_parser.py,
lines 143-171). -/
def extract_first_letters (response : List Char) : Option (List Char) :=
  (tryPatterns firstPatterns response).map cleanLetters

/-- Patterns of `ResponseParser._extract_last_letters`, in source order
(IGNORECASE, raw response):
`ends?\s+with\s+['"]([a-zA-Z]+)['"]`,
`last\s+(\d+)\s+letters?\s+are?\s+['"]([a-zA-Z]+)['"]`,
`last\s+letters?\s+are?\s+['"]([a-zA-Z]+)['"]`,
`finishes?\s+with\s+['"]([a-zA-Z]+)['"]`,
`last\s+(?:\d+|\w+)\s+letters?\s+(?:of\s+the\s+password\s+)?are\s+(.+)`,
`last\s+letters?\s+(?:of\s+the\s+password\s+)?are\s+(.+)`. -/
def lastPatterns : List (RE × Nat) :=
  [(seqAll (cilits "end" ++ [.opt (.cilit 's'), .rep1 .space] ++ cilits "with" ++
      [.rep1 .space, .cls .quote, .grp 1 (.rep1 .alpha), .cls .quote]), 1),
   (seqAll (cilits "last" ++ [.rep1 .space, .grp 1 (.rep1 .digit), .rep1 .space] ++
      cilits "letter" ++ [.opt (.cilit 's'), .rep1 .space] ++ cilits "ar" ++
      [.opt (.cilit 'e'), .rep1 .space, .cls .quote, .grp 2 (.rep1 .alpha), .cls .quote]), 2),
   (seqAll (cilits "last" ++ [.rep1 .space] ++ cilits "letter" ++
      [.opt (.cilit 's'), .rep1 .space] ++ cilits "ar" ++
      [.opt (.cilit 'e'), .rep1 .space, .cls .quote, .grp 1 (.rep1 .alpha), .cls .quote]), 1),
   (seqAll (cilits "finishe" ++ [.opt (.cilit 's'), .rep1 .space] ++ cilits "with" ++
      [.rep1 .space, .cls .quote, .grp 1 (.rep1 .alpha), .cls .quote]), 1),
   (seqAll (cilits "last" ++ [.rep1 .space, .alt (.rep1 .digit) (.rep1 .wordc), .rep1 .space] ++
      cilits "letter" ++ [.opt (.cilit 's'), .rep1 .space, optOfThePasswordCI] ++ cilits "are" ++
      [.rep1 .space, .grp 1 (.rep1 .notNL)]), 1),
   (seqAll (cilits "last" ++ [.rep1 .space] ++ cilits "letter" ++
      [.opt (.cilit 's'), .rep1 .space, optOfThePasswordCI] ++ cilits "are" ++
      [.rep1 .space, .grp 1 (.rep1 .notNL)]), 1)]

/-- Embedding of `ResponseParser._extract_last_letters` (response_parser.py,
lines 173-202). -/
def extract_last_letters (response : List Char) : Option (List Char) :=
  (tryPatterns lastPatterns response).map cleanLetters

/-- Python value stored in the clue dict: an int or a string. -/
inductive PyVal where
  | vnum (n : Nat)
  | vstr (s : List Char)
  deriving DecidableEq, Repr

/-- Decidable equality for `Except`, so concrete runs of the raising
embeddings can be checked by `decide`. -/
def exceptDecEq {α β : Type} [DecidableEq α] [DecidableEq β] :
    DecidableEq (Except α β)
  | .ok a, .ok b => if h : a = b then .isTrue (by rw [h]) else .isFalse (by simp [h])
  | .error a, .error b => if h : a = b then .isTrue (by rw [h]) else .isFalse (by simp [h])
  | .ok _, .error _ => .isFalse (by simp)
  | .error _, .ok _ => .isFalse (by simp)

instance {α β : Type} [DecidableEq α] [DecidableEq β] : DecidableEq (Except α β) :=
  exceptDecEq

/-- Clue store: a Python dict as an association list in insertion order. -/
abbrev Clues := List (String × PyVal)

/-- Python `dict.get(k)`. -/
def dictGet (clues : Clues) (k : String) : Option PyVal :=
  List.lookup k clues

/-- Python `dict.get(k, default)`. -/
def dictGetD (clues : Clues) (k : String) (d : PyVal) : PyVal :=
  (dictGet clues k).getD d

/-- Python `d[k] = v`: replace in place if the key exists, else append. -/
def dictSet : Clues → String → PyVal → Clues
  | [], k, v => [(k, v)]
  | (k', v') :: t, k, v => if k' = k then (k, v) :: t else (k', v') :: dictSet t k v

/-- Python `d.update(new)`. -/
def dictUpdate (d new : Clues) : Clues :=
  new.foldl (fun acc kv => dictSet acc kv.1 kv.2) d

/-- Python truthiness of a stored value. -/
def pyTruthy : PyVal → Bool
  | .vnum n => n != 0
  | .vstr s => !s.isEmpty

/-- Python truthiness of `dict.get`'s result. -/
def pyTruthyO : Option PyVal → Bool
  | none => false
  | some v => pyTruthy v

/-- Use of a value as a string; anything else raises (TypeError). -/
def pyStr : PyVal → Except Unit (List Char)
  | .vstr s => .ok s
  | .vnum _ => .error ()

/-- Use of a looked-up value as an int; anything else raises (TypeError). -/
def pyNum : Option PyVal → Except Unit Nat
  | some (.vnum n) => .ok n
  | _ => .error ()

/-- Spelled-ordinal table of `_extract_individual_letters`. -/
def ordWordToNumber : List (List Char × Nat) :=
  [("first".toList, 1), ("second".toList, 2), ("third".toList, 3), ("fourth".toList, 4),
   ("fifth".toList, 5), ("sixth".toList, 6), ("seventh".toList, 7), ("eighth".toList, 8),
   ("ninth".toList, 9), ("tenth".toList, 10)]

/-- Alternation `(?:st|nd|rd|th)`. -/
def ordSuffixRE : RE :=
  altAll [seqAll (lits "st"), seqAll (lits "nd"), seqAll (lits "rd"), seqAll (lits "th")]

/-- Alternation `(first|second|third|fourth|fifth|sixth|seventh|eighth|ninth|tenth)`. -/
def ordWordsRE : RE :=
  altAll (ordWordToNumber.map (fun wn => seqAll (wn.1.map RE.lit)))

/-- Optional phrase `(?:of\s+the\s+password\s+)?` in lowercase-literal form
(these patterns run on the lowercased response without IGNORECASE). -/
def optOfThePasswordLC : RE :=
  .opt (seqAll (lits "of" ++ [.rep1 .space] ++ lits "the" ++ [.rep1 .space] ++
    lits "password" ++ [.rep1 .space]))

/-- Patterns of `ResponseParser._extract_individual_letters`, in source order
(applied to the lowercased response):
`(\d+)(?:st|nd|rd|th)\s+letter\s+is\s+['"]([a-zA-Z])['"]`,
`the\s+(\d+)(?:st|nd|rd|th)\s+letter\s+is\s+['"]([a-zA-Z])['"]`,
`letter\s+(\d+)\s+is\s+['"]([a-zA-Z])['"]`,
`position\s+(\d+)\s+is\s+['"]([a-zA-Z])['"]`,
`(first|...|tenth)\s+letter\s+(?:of\s+the\s+password\s+)?is\s+['"]([a-zA-Z])['"]`,
`the\s+(first|...|tenth)\s+letter\s+(?:of\s+the\s+password\s+)?is\s+['"]([a-zA-Z])['"]`,
`(\d+)(?:st|nd|rd|th)\s+letter\s+is\s+([a-zA-Z])\.?`,
`the\s+(\d+)(?:st|nd|rd|th)\s+letter\s+is\s+([a-zA-Z])\.?`,
`(first|...|tenth)\s+letter\s+(?:of\s+the\s+password\s+)?is\s+([a-zA-Z])\.?`,
`the\s+(first|...|tenth)\s+letter\s+(?:of\s+the\s+password\s+)?is\s+([a-zA-Z])\.?`. -/
def individualPatterns : List RE :=
  [seqAll ([.grp 1 (.rep1 .digit), ordSuffixRE, .rep1 .space] ++ lits "letter" ++
     [.rep1 .space] ++ lits "is" ++ [.rep1 .space, .cls .quote, .grp 2 (.cls .alpha), .cls .quote]),
   seqAll (lits "the" ++ [.rep1 .space, .grp 1 (.rep1 .digit), ordSuffixRE, .rep1 .space] ++
     lits "letter" ++ [.rep1 .space] ++ lits "is" ++
     [.rep1 .space, .cls .quote, .grp 2 (.cls .alpha), .cls .quote]),
   seqAll (lits "letter" ++ [.rep1 .space, .grp 1 (.rep1 .digit), .rep1 .space] ++ lits "is" ++
     [.rep1 .space, .cls .quote, .grp 2 (.cls .alpha), .cls .quote]),
   seqAll (lits "position" ++ [.rep1 .space, .grp 1 (.rep1 .digit), .rep1 .space] ++ lits "is" ++
     [.rep1 .space, .cls .quote, .grp 2 (.cls .alpha), .cls .quote]),
   seqAll ([.grp 1 ordWordsRE, .rep1 .space] ++ lits "letter" ++
     [.rep1 .space, optOfThePasswordLC] ++ lits "is" ++
     [.rep1 .space, .cls .quote, .grp 2 (.cls .alpha), .cls .quote]),
   seqAll (lits "the" ++ [.rep1 .space, .grp 1 ordWordsRE, .rep1 .space] ++ lits "letter" ++
     [.rep1 .space, optOfThePasswordLC] ++ lits "is" ++
     [.rep1 .space, .cls .quote, .grp 2 (.cls .alpha), .cls .quote]),
   seqAll ([.grp 1 (.rep1 .digit), ordSuffixRE, .rep1 .space] ++ lits "letter" ++
     [.rep1 .space] ++ lits "is" ++ [.rep1 .space, .grp 2 (.cls .alpha), .opt (.lit '.')]),
   seqAll (lits "the" ++ [.rep1 .space, .grp 1 (.rep1 .digit), ordSuffixRE, .rep1 .space] ++
     lits "letter" ++ [.rep1 .space] ++ lits "is" ++
     [.rep1 .space, .grp 2 (.cls .alpha), .opt (.lit '.')]),
   seqAll ([.grp 1 ordWordsRE, .rep1 .space] ++ lits "letter" ++
     [.rep1 .space, optOfThePasswordLC] ++ lits "is" ++
     [.rep1 .space, .grp 2 (.cls .alpha), .opt (.lit '.')]),
   seqAll (lits "the" ++ [.rep1 .space, .grp 1 ordWordsRE, .rep1 .space] ++ lits "letter" ++
     [.rep1 .space, optOfThePasswordLC] ++ lits "is" ++
     [.rep1 .space, .grp 2 (.cls .alpha), .opt (.lit '.')])]

/-- Embedding of `ResponseParser._extract_individual_letters`
(response_parser.py, lines 204-247): every pattern contributes its first match
(position from group 1 via digits or the spelled-ordinal table, letter from
group 2), positions of 0 are falsy and dropped. -/
def extract_individual_letters (response : List Char) : Clues :=
  let rl := response.map lowerChar
  individualPatterns.foldl (fun acc p =>
    match reSearch p rl with
    | none => acc
    | some caps =>
      match caps.lookup 1, caps.lookup 2 with
      | some posStr, some letter =>
        let pos : Option Nat :=
          if posStr ≠ [] && posStr.all Char.isDigit then some (digitsToNat posStr)
          else ordWordToNumber.lookup (posStr.map lowerChar)
        match pos with
        | some p => if p ≠ 0 then dictSet acc ("letter_" ++ toString p) (.vstr (letter.map lowerChar)) else acc
        | none => acc
      | _, _ => acc) []

/-- Python `not expected_count or len(cleaned) <= expected_count`. -/
def ecPasses : Option Nat → Nat → Bool
  | none, _ => true
  | some m, len => m == 0 || len ≤ m

/-- Truthiness of an optional extracted string (Python: `None` and `""` are
both falsy). -/
def truthyS : Option (List Char) → Bool
  | none => false
  | some l => !l.isEmpty

/-- First-letters result inside `parse_response_with_expected_count`
(response_parser.py, lines 61-70): the extractor, else the bare-letters-token
fallback gated by the expected length. -/
def firstLettersResult (response : List Char) (expected_count : Option Nat) :
    Option (List Char) :=
  let fl := extract_first_letters response
  if truthyS fl then fl
  else
    let cleaned := response.filter isAsciiAlpha
    if (reFullmatch patBareAlpha response).isSome && !cleaned.isEmpty &&
        ecPasses expected_count cleaned.length then
      some (cleaned.map lowerChar)
    else fl

/-- Last-letters result inside `parse_response_with_expected_count`
(response_parser.py, lines 73-82). -/
def lastLettersResult (response : List Char) (expected_count : Option Nat) :
    Option (List Char) :=
  let ll := extract_last_letters response
  if truthyS ll then ll
  else
    let cleaned := response.filter isAsciiAlpha
    if (reFullmatch patBareAlpha response).isSome && !cleaned.isEmpty &&
        ecPasses expected_count cleaned.length then
      some (cleaned.map lowerChar)
    else ll

/-- Embedding of `ResponseParser.parse_response_with_expected_count`
(response_parser.py, lines 48-93). -/
def parse_response_with_expected_count (response : List Char)
    (expected_count : Option Nat) (clue_type : Option String) : Clues :=
  let clues : Clues := []
  let clues :=
    if clue_type = none ∨ clue_type = some "letter_count" then
      match extract_letter_count response with
      | some n => if n ≠ 0 then dictSet clues "letter_count" (.vnum n) else clues
      | none => clues
    else clues
  let clues :=
    if clue_type = some "first_letters" ∨ clue_type = none then
      match firstLettersResult response expected_count with
      | some l => if l ≠ [] then dictSet clues "first_letters" (.vstr l) else clues
      | none => clues
    else clues
  let clues :=
    if clue_type = some "last_letters" ∨ clue_type = none then
      match lastLettersResult response expected_count with
      | some l => if l ≠ [] then dictSet clues "last_letters" (.vstr l) else clues
      | none => clues
    else clues
  let clues :=
    if clue_type = none ∨ clue_type = some "individual" then
      dictUpdate clues (extract_individual_letters response)
    else clues
  clues

/-- Key `letter_{i}` for a 1-indexed pinned position. -/
def letterKey (i : Nat) : String := "letter_" ++ toString i

/-- Embedding of `PromptGenerator._ordinal` (prompt_generator.py, lines 70-76):
`'th'` for 10..20 mod 100, else by the last digit. -/
def ordinalStr (n : Nat) : List Char :=
  let suffix : String :=
    if 10 ≤ n % 100 ∧ n % 100 ≤ 20 then "th"
    else
      match n % 10 with
      | 1 => "st"
      | 2 => "nd"
      | 3 => "rd"
      | _ => "th"
  (Nat.repr n).toList ++ suffix.toList

/-- Question text constants of the prompt planner. -/
def qHowMany : List Char := "How many letters?".toList

/-- Question asking for the first three letters. -/
def qFirstThree : List Char := "What are the first three letters?".toList

/-- Question asking for the last three letters. -/
def qLastThree : List Char := "What are the last three letters?".toList

/-- Question asking for the letter at 1-indexed position `p`. -/
def qNthLetter (p : Nat) : List Char :=
  "What is the ".toList ++ ordinalStr p ++ " letter?".toList

/-- Embedding of `PromptGenerator._get_strategic_prompt` (prompt_generator.py,
lines 29-68).  `none` is the planner's done sentinel; ill-typed store values
raise, which the caller `get_next_prompt` catches. -/
def get_strategic_prompt (clues : Clues) : Except Unit (Option (List Char)) :=
  let lc := dictGet clues "letter_count"
  if !pyTruthyO lc then .ok (some qHowMany)
  else
    let firstV := dictGetD clues "first_letters" (.vstr [])
    if !pyTruthy firstV then .ok (some qFirstThree)
    else
      let lastV := dictGetD clues "last_letters" (.vstr [])
      if !pyTruthy lastV then .ok (some qLastThree)
      else
        match pyStr firstV, pyStr lastV, pyNum lc with
        | .ok f, .ok g, .ok n =>
          if f.length + g.length ≥ n then .ok none
          else
            match ((List.range' f.length (n - g.length - f.length)).filter
                (fun i => (dictGet clues (letterKey (i + 1))).isNone)).map (· + 1) with
            | p :: _ => .ok (some (qNthLetter p))
            | [] => .ok none
        | _, _, _ => .error ()

/-- Embedding of `PromptGenerator.get_next_prompt` (prompt_generator.py,
lines 17-27): empty store or any exception yields the letter-count question. -/
def get_next_prompt (clues : Clues) : Option (List Char) :=
  if clues.isEmpty then some qHowMany
  else
    match get_strategic_prompt clues with
    | .ok r => r
    | .error _ => some qHowMany

/-- Embedding of `PromptGenerator.has_sufficient_letters`
(prompt_generator.py, lines 78-98).  Note the pinned-clue count is
`sum(1 for key in clues.keys() if key.startswith('letter_'))`, which counts
every key with the `letter_` prefix, the `letter_count` key included. -/
def has_sufficient_letters (clues : Clues) : Except Unit Bool :=
  let lc := dictGet clues "letter_count"
  if !pyTruthyO lc then .ok false
  else
    match pyStr (dictGetD clues "first_letters" (.vstr [])),
          pyStr (dictGetD clues "last_letters" (.vstr [])), pyNum lc with
    | .ok f, .ok g, .ok n =>
      if f.length + g.length ≥ n then .ok true
      else
        .ok (decide (clues.countP (fun kv => strStartsWith kv.1 "letter_") ≥
          n - f.length - g.length))
    | _, _, _ => .error ()

/-- Middle section of `PromptGenerator.reconstruct_word`: one element per
position `i+1` for `i` in `[lo, lo+cnt)`, the pinned value's string when the
key is present (raising if it is not a string) and `"?"` otherwise. -/
def middleLetters (clues : Clues) : Nat → Nat → Except Unit (List (List Char))
  | _, 0 => .ok []
  | i, cnt + 1 =>
    match (match dictGet clues (letterKey (i + 1)) with
           | some v => pyStr v
           | none => .ok ['?']),
          middleLetters clues (i + 1) cnt with
    | .ok e, .ok rest => .ok (e :: rest)
    | _, _ => .error ()

/-- Embedding of `PromptGenerator.reconstruct_word` (prompt_generator.py,
lines 100-124): the first letters, then one element per middle position, then
the last letters, concatenated. -/
def reconstruct_word (clues : Clues) : Except Unit (List Char) :=
  let lc := dictGet clues "letter_count"
  if !pyTruthyO lc then .ok []
  else
    match pyStr (dictGetD clues "first_letters" (.vstr [])), pyNum lc,
          pyStr (dictGetD clues "last_letters" (.vstr [])) with
    | .ok f, .ok n, .ok g =>
      match middleLetters clues f.length (n - g.length - f.length) with
      | .ok mids => .ok (f ++ mids.flatten ++ g)
      | .error e => .error e
    | _, _, _ => .error ()

/-- Backup prompt text: the last letter. -/
def qLastLetter : List Char := "What is the last letter?".toList

/-- Backup prompt text: the last two letters. -/
def qLastTwo : List Char := "What are the last two letters?".toList

/-- Embedding of `HackMerlinSolver._generate_systematic_backup_prompts`
(hackmerlin_solver.py, lines 281-316), producing (prompt, strategy) pairs by
successive appends exactly as the source builds its list. -/
def generate_systematic_backup_prompts (letter_count : Nat)
    (first_letters last_letters : List Char) : List (List Char × List Char) :=
  let prompts : List (List Char × List Char) := []
  let prompts :=
    if last_letters.length ≠ 1 then prompts ++ [(qLastLetter, "last_letter".toList)]
    else prompts
  let prompts :=
    if first_letters.length ≠ 3 then prompts ++ [(qFirstThree, "first_3_letters".toList)]
    else prompts
  let prompts :=
    (List.range' 4 (letter_count + 1 - 4)).foldl
      (fun acc pos => acc ++ [(qNthLetter pos, "letter_".toList ++ (Nat.repr pos).toList)])
      prompts
  let prompts :=
    if last_letters.length ≠ 2 then prompts ++ [(qLastTwo, "last_two_letters".toList)]
    else prompts
  prompts

/-- Embedding of the prompt classification in
`HackMerlinSolver._backup_prompt_strategy` (hackmerlin_solver.py, lines
196-214): clue type and expected answer length derived from the prompt text. -/
def classifyBackupPrompt (prompt : List Char) : Option String × Option Nat :=
  let pl := prompt.map lowerChar
  if hasSub "first".toList pl then
    (some "first_letters", if hasSub "three".toList pl then some 3 else none)
  else if hasSub "last".toList pl then
    (some "last_letters",
      if hasSub "last two".toList pl then some 2
      else if hasSub "last three".toList pl then some 3
      else if hasSub "last four".toList pl then some 4
      else if hasSub "last letter".toList pl then some 1
      else none)
  else if hasSub "letter".toList pl &&
      (["4th", "5th", "6th", "7th", "8th"].any (fun o => hasSub o.toList pl)) then
    (some "individual", none)
  else (none, none)

/-- Embedding of the clue-merge step of
`HackMerlinSolver._backup_prompt_strategy` (hackmerlin_solver.py, lines
218-228): a "last letter" answer replaces only the final character of an
existing suffix, every other answer is a plain dict update.  `none` models an
exception (caught at the strategy level in the source). -/
def applyBackupClueUpdate (clues new_clues : Clues) (clue_type : Option String)
    (expected_count : Option Nat) : Option Clues :=
  if (dictGet new_clues "last_letters").isSome ∧ clue_type = some "last_letters" ∧
      expected_count = some 1 then
    match dictGet new_clues "last_letters" with
    | some (.vstr t) =>
      match t.getLast? with
      | some c =>
        match dictGetD clues "last_letters" (.vstr []) with
        | .vstr s =>
          if s ≠ [] then some (dictSet clues "last_letters" (.vstr (s.dropLast ++ [c])))
          else some (dictSet clues "last_letters" (.vstr [c]))
        | .vnum m =>
          if m ≠ 0 then none
          else some (dictSet clues "last_letters" (.vstr [c]))
      | none => none
    | some (.vnum _) => none
    | none => some (dictUpdate clues new_clues)
  else some (dictUpdate clues new_clues)

/-- Python `str.split('_')`. -/
def splitUnderscore (l : List Char) : List (List Char) :=
  l.foldr
    (fun c acc =>
      if c = '_' then [] :: acc
      else
        match acc with
        | [] => [[c]]
        | h :: t => (c :: h) :: t)
    [[]]

/-- Python `int(s)` on a string: optional surrounding whitespace, optional
sign, then digits.  (Separating underscores inside digit runs cannot occur
here because the parsed segment comes from `str.split('_')`.) -/
def pyIntParse (s : List Char) : Option Int :=
  match pyStrip s with
  | '+' :: ds => if ds ≠ [] && ds.all Char.isDigit then some (digitsToNat ds : Int) else none
  | '-' :: ds => if ds ≠ [] && ds.all Char.isDigit then some (-(digitsToNat ds : Int)) else none
  | ds => if ds ≠ [] && ds.all Char.isDigit then some (digitsToNat ds : Int) else none

/-- Index parsed from a `letter_…` key as `int(key.split('_')[1])` does, with
parse failures (ValueError/IndexError, caught in the source) as `none`. -/
def letterKeyIdx (k : String) : Option Int :=
  if strStartsWith k "letter_" then
    match (splitUnderscore k.toList)[1]? with
    | some seg => pyIntParse seg
    | none => none
  else none

/-- Frequency-ordered filler pool of `WordMatcher._direct_concatenation`:
vowels then common consonants. -/
def commonLetters : List Char := ['a', 'e', 'i', 'o', 'u', 'r', 's', 't', 'n', 'l']

/-- First-letters fill loop of `_direct_concatenation`: `word[i] = letter` for
each prefix character with `i < letter_count`. -/
def fillFirst (n : Nat) : List PyVal → Nat → List Char → List PyVal
  | w, _, [] => w
  | w, i, c :: cs => fillFirst n (if i < n then w.set i (.vstr [c]) else w) (i + 1) cs

/-- Last-letters fill loop of `_direct_concatenation`:
`pos = letter_count - len(last_letters) + i`, guarded to the word bounds. -/
def fillLast (n b : Nat) : List PyVal → Nat → List Char → List PyVal
  | w, _, [] => w
  | w, j, c :: cs =>
    fillLast n b
      (if 0 ≤ (n : Int) - (b : Int) + (j : Int) ∧ (n : Int) - (b : Int) + (j : Int) < (n : Int)
       then w.set ((n : Int) - (b : Int) + (j : Int)).toNat (.vstr [c]) else w)
      (j + 1) cs

/-- One `letter_…` item of the pin loop of `_direct_concatenation`. -/
def applyPin (n : Nat) (w : List PyVal) (kv : String × PyVal) : List PyVal :=
  if strStartsWith kv.1 "letter_" then
    match letterKeyIdx kv.1 with
    | some idx =>
      if 0 ≤ idx - 1 ∧ idx - 1 < (n : Int) then w.set (idx - 1).toNat kv.2 else w
    | none => w
  else w

/-- Pin loop of `_direct_concatenation` over the store items in order. -/
def fillPins (n : Nat) : List PyVal → Clues → List PyVal
  | w, [] => w
  | w, kv :: rest => fillPins n (applyPin n w kv) rest

/-- Filler loop of `_direct_concatenation`: replace every remaining `'?'`
element by the pool letter at the position modulo the pool size. -/
def fillCommon : List PyVal → Nat → List PyVal
  | [], _ => []
  | v :: t, i =>
    (if v = PyVal.vstr ['?'] then PyVal.vstr [commonLetters.getD (i % 10) 'a'] else v) ::
      fillCommon t (i + 1)

/-- Decidable well-formedness of one store item for `_direct_concatenation`:
if the item is a `letter_…` key whose parsed index lands inside the word, its
value must be a single-character string (the data model's pinned letter). -/
def pinValueOK (n : Nat) (kv : String × PyVal) : Bool :=
  if strStartsWith kv.1 "letter_" then
    match letterKeyIdx kv.1 with
    | some idx =>
      if 0 ≤ idx - 1 ∧ idx - 1 < (n : Int) then
        match kv.2 with
        | .vstr [_] => true
        | _ => false
      else true
    | none => true
  else true

/-- Python `''.join(word)`: concatenation, raising if an element is not a
string. -/
def pyJoin : List PyVal → Except Unit (List Char)
  | [] => .ok []
  | v :: t =>
    match pyStr v, pyJoin t with
    | .ok s, .ok r => .ok (s ++ r)
    | _, _ => .error ()

/-- Body of `WordMatcher._direct_concatenation` (word_matcher.py, lines
78-129) before its `except` clause. -/
def direct_concatenation_aux (clues : Clues) : Except Unit (Option (List Char)) :=
  let lc := dictGet clues "letter_count"
  if !pyTruthyO lc then .ok none
  else
    match pyNum lc, pyStr (dictGetD clues "first_letters" (.vstr [])),
          pyStr (dictGetD clues "last_letters" (.vstr [])) with
    | .ok n, .ok f, .ok g =>
      let word0 := List.replicate n (PyVal.vstr ['?'])
      let word1 := fillFirst n word0 0 f
      let word2 := fillLast n g.length word1 0 g
      let word3 := fillPins n word2 clues
      if !word3.contains (PyVal.vstr ['?']) then
        match pyJoin word3 with
        | .ok r => .ok (some r)
        | .error e => .error e
      else
        match pyJoin (fillCommon word3 0) with
        | .ok r => .ok (some r)
        | .error e => .error e
    | _, _, _ => .error ()

/-- Embedding of `WordMatcher._direct_concatenation`: any exception inside is
caught and yields `None`. -/
def direct_concatenation (clues : Clues) : Option (List Char) :=
  match direct_concatenation_aux clues with
  | .ok r => r
  | .error _ => none

/-- Specification-side definition: the standard English ordinal suffix (1st,
2nd, 3rd, nth, with 11th-13th taking "th"), stated independently of the
source's `_ordinal`. -/
def englishOrdinalSuffix (n : Nat) : List Char :=
  if n % 10 = 1 ∧ n % 100 ≠ 11 then "st".toList
  else if n % 10 = 2 ∧ n % 100 ≠ 12 then "nd".toList
  else if n % 10 = 3 ∧ n % 100 ≠ 13 then "rd".toList
  else "th".toList

/-- Specification-side notion used by claim C9: the requested clue type finds
no usable pattern in the answer (the extractor for that type, with the
bare-letters fallback where the source has one, yields nothing truthy). -/
def noPatternMatches (clue_type : Option String) (expected_count : Option Nat)
    (response : List Char) : Prop :=
  (clue_type = none ∨ clue_type = some "letter_count" →
    extract_letter_count response = none) ∧
  (clue_type = none ∨ clue_type = some "first_letters" →
    truthyS (firstLettersResult response expected_count) = false) ∧
  (clue_type = none ∨ clue_type = some "last_letters" →
    truthyS (lastLettersResult response expected_count) = false) ∧
  (clue_type = none ∨ clue_type = some "individual" →
    extract_individual_letters response = [])

/-- Decidable well-formedness of one pinned slot: the `letter_i` key is
either absent or holds a single-character string. -/
def pinnedSingleOK (clues : Clues) (i : Nat) : Bool :=
  match dictGet clues (letterKey i) with
  | none => true
  | some (.vstr [_]) => true
  | some _ => false

/-- Decidable no-conflict check of one pinned slot against the prefix: a
pinned single character lying inside the prefix must equal the prefix
character there. -/
def pinAgreesFirst (clues : Clues) (f : List Char) (i : Nat) : Bool :=
  match dictGet clues (letterKey i) with
  | some (.vstr [c]) => if i - 1 < f.length then f[i - 1]? == some c else true
  | _ => true

/-- Decidable no-conflict check of one pinned slot against the suffix. -/
def pinAgreesLast (clues : Clues) (n : Nat) (g : List Char) (i : Nat) : Bool :=
  match dictGet clues (letterKey i) with
  | some (.vstr [c]) =>
    if n - g.length < i then g[i - 1 - (n - g.length)]? == some c else true
  | _ => true

/-! Basic lemmas about the dict model. -/

theorem dictGet_dictSet_self (clues : Clues) (k : String) (v : PyVal) :
    dictGet (dictSet clues k v) k = some v := by
  induction clues with
  | nil => simp [dictSet, dictGet, List.lookup]
  | cons kv t ih =>
    obtain ⟨k', v'⟩ := kv
    by_cases h : k' = k
    · subst h
      simp [dictSet, dictGet, List.lookup]
    · simp only [dictSet, if_neg h, dictGet, List.lookup] at *
      rw [beq_eq_false_iff_ne.mpr (Ne.symm h)]
      exact ih

theorem dictUpdate_nil (d : Clues) : dictUpdate d [] = d := rfl

theorem dictGet_ne_nil {clues : Clues} {k : String} {v : PyVal}
    (h : dictGet clues k = some v) : clues.isEmpty = false := by
  cases clues with
  | nil => simp [dictGet, List.lookup] at h
  | cons kv t => rfl

/-- Helper: the source's ordinal suffix agrees with the standard English
ordinal suffix. -/
theorem ordinalStr_eq_english (n : Nat) :
    ordinalStr n = (Nat.repr n).toList ++ englishOrdinalSuffix n := by
  have h10 : n % 10 = n % 100 % 10 := (Nat.mod_mod_of_dvd n (by norm_num)).symm
  have hm : n % 100 < 100 := Nat.mod_lt _ (by norm_num)
  have key : ∀ m, m < 100 →
      (if 10 ≤ m ∧ m ≤ 20 then ("th" : String)
       else
         match m % 10 with
         | 1 => "st"
         | 2 => "nd"
         | 3 => "rd"
         | _ => "th").toList
      = (if m % 10 = 1 ∧ m ≠ 11 then "st".toList
         else if m % 10 = 2 ∧ m ≠ 12 then "nd".toList
         else if m % 10 = 3 ∧ m ≠ 13 then "rd".toList
         else "th".toList) := by decide
  unfold ordinalStr englishOrdinalSuffix
  rw [h10]
  exact congrArg (fun z => (Nat.repr n).toList ++ z) (key (n % 100) hm)

/-- C3: a clue store with letter_count, first_letters and last_letters all set
and prefix plus suffix covering the whole word makes the prompt planner
(`get_next_prompt`) return the done sentinel `none`, and — the planner being a
pure function of the store — every one of any number of repeated calls
returns `none` as well. -/
theorem planner_done_when_covered (clues : Clues) (n : Nat) (f g : List Char)
    (hlc : dictGet clues "letter_count" = some (.vnum n)) (hn : 0 < n)
    (hf : dictGet clues "first_letters" = some (.vstr f)) (hfne : f ≠ [])
    (hg : dictGet clues "last_letters" = some (.vstr g)) (hgne : g ≠ [])
    (hcov : n ≤ f.length + g.length) :
    get_next_prompt clues = none ∧
      ∀ m : Nat, (List.range m).map (fun _ => get_next_prompt clues) =
        List.replicate m none := by
  have hmain : get_next_prompt clues = none := by
    unfold get_next_prompt get_strategic_prompt
    rw [dictGet_ne_nil hlc]
    simp only [hlc, dictGetD, hf, hg, Option.getD_some]
    simp [pyTruthyO, pyTruthy, hn.ne', hfne, hgne, pyStr, pyNum, hcov]
  refine ⟨hmain, fun m => ?_⟩
  simp [hmain, List.map_const', List.eq_replicate_iff]

/-- C3 witness at a concrete covered store. -/
theorem planner_done_when_covered_witness :
    get_next_prompt
      [("letter_count", PyVal.vnum 6), ("first_letters", PyVal.vstr "zodi".toList),
       ("last_letters", PyVal.vstr "lee".toList)] = none :=
  (planner_done_when_covered _ 6 "zodi".toList "lee".toList (by decide) (by decide)
    (by decide) (by decide) (by decide) (by decide) (by decide)).1

/-- Helper: folding appends of singletons equals appending the map. -/
theorem foldl_append_map {α β : Type} (h : α → β) (l : List α) (init : List β) :
    l.foldl (fun acc x => acc ++ [h x]) init = init ++ l.map h := by
  induction l generalizing init with
  | nil => simp
  | cons a t ih => simp [ih]

/-- C6: the backup question queue is exactly: a last-letter question iff the
known suffix length is not 1, then a first-three question iff the known prefix
length is not 3, then one single-letter question per position from 4 up to
letter_count in increasing order, then a last-two question iff the known
suffix length is not 2. -/
theorem backup_queue_structure (n : Nat) (f g : List Char) (hn : 1 ≤ n) :
    generate_systematic_backup_prompts n f g =
      (if g.length ≠ 1 then [(qLastLetter, "last_letter".toList)] else []) ++
      (if f.length ≠ 3 then [(qFirstThree, "first_3_letters".toList)] else []) ++
      (List.range' 4 (n - 3)).map
        (fun pos => (qNthLetter pos, "letter_".toList ++ (Nat.repr pos).toList)) ++
      (if g.length ≠ 2 then [(qLastTwo, "last_two_letters".toList)] else []) := by
  have h34 : n + 1 - 4 = n - 3 := by omega
  simp only [generate_systematic_backup_prompts]
  rw [h34,
    foldl_append_map (fun pos => (qNthLetter pos, "letter_".toList ++ (Nat.repr pos).toList))]
  split_ifs <;> simp

/-- C6 witness at letter_count 5 with a 2-letter prefix and 3-letter suffix. -/
theorem backup_queue_structure_witness :
    generate_systematic_backup_prompts 5 "ab".toList "xyz".toList =
      (if ("xyz".toList).length ≠ 1 then [(qLastLetter, "last_letter".toList)] else []) ++
      (if ("ab".toList).length ≠ 3 then [(qFirstThree, "first_3_letters".toList)] else []) ++
      (List.range' 4 (5 - 3)).map
        (fun pos => (qNthLetter pos, "letter_".toList ++ (Nat.repr pos).toList)) ++
      (if ("xyz".toList).length ≠ 2 then [(qLastTwo, "last_two_letters".toList)] else []) :=
  backup_queue_structure 5 "ab".toList "xyz".toList (by decide)

/-- C5: when the backup question was the last-letter question (classified as
clue type last_letters with expected length 1) and the store already holds a
nonempty suffix `s`, the merge replaces only the final character of `s` with
the final character of the parsed value: the length is preserved, the first
`len s - 1` characters are unchanged, and an agreeing final character leaves
the suffix identical. -/
theorem backup_last_letter_merge (clues new_clues : Clues) (s t : List Char) (c : Char)
    (hs : dictGet clues "last_letters" = some (.vstr s)) (hsne : s ≠ [])
    (ht : dictGet new_clues "last_letters" = some (.vstr t))
    (hc : t.getLast? = some c) :
    ∃ clues',
      applyBackupClueUpdate clues new_clues (classifyBackupPrompt qLastLetter).1
        (classifyBackupPrompt qLastLetter).2 = some clues' ∧
      dictGet clues' "last_letters" = some (.vstr (s.dropLast ++ [c])) ∧
      (s.dropLast ++ [c]).length = s.length ∧
      (s.dropLast ++ [c]).dropLast = s.dropLast ∧
      (t.getLast? = s.getLast? → s.dropLast ++ [c] = s) := by
  have hclass : classifyBackupPrompt qLastLetter = (some "last_letters", some 1) := by decide
  rw [hclass]
  refine ⟨dictSet clues "last_letters" (.vstr (s.dropLast ++ [c])), ?_, ?_, ?_, ?_, ?_⟩
  · unfold applyBackupClueUpdate
    rw [if_pos ⟨by rw [ht]; rfl, rfl, rfl⟩, ht]
    simp only [hc, dictGetD, hs, Option.getD_some]
    rw [if_pos hsne]
  · exact dictGet_dictSet_self ..
  · have := List.length_dropLast s
    have : 0 < s.length := List.length_pos.mpr hsne
    simp [List.length_dropLast]
    omega
  · exact List.dropLast_concat
  · intro hagree
    rw [hc] at hagree
    have hlast : s.getLast hsne = c := by
      rw [List.getLast?_eq_getLast s hsne] at hagree
      exact (Option.some_inj.mp hagree).symm
    calc s.dropLast ++ [c] = s.dropLast ++ [s.getLast hsne] := by rw [hlast]
      _ = s := List.dropLast_append_getLast hsne

/-- C5 witness: existing suffix "et", last-letter answer "t". -/
theorem backup_last_letter_merge_witness :
    ∃ clues',
      applyBackupClueUpdate [("last_letters", PyVal.vstr "et".toList)]
        [("last_letters", PyVal.vstr "t".toList)] (classifyBackupPrompt qLastLetter).1
        (classifyBackupPrompt qLastLetter).2 = some clues' ∧
      dictGet clues' "last_letters" = some (.vstr ("et".toList.dropLast ++ ['t'])) ∧
      ("et".toList.dropLast ++ ['t']).length = "et".toList.length ∧
      ("et".toList.dropLast ++ ['t']).dropLast = "et".toList.dropLast ∧
      ("t".toList.getLast? = "et".toList.getLast? → "et".toList.dropLast ++ ['t'] = "et".toList) :=
  backup_last_letter_merge _ _ _ _ 't' (by decide) (by decide) (by decide) (by decide)

/-- C2 (amended): with a known positive letter_count and string prefix/suffix
slots, `has_sufficient_letters` is true exactly when the raw prefix-plus-suffix
length covers the word or the number of store keys starting with "letter_"
(the letter_count key included) reaches the number of uncovered positions. -/
theorem has_sufficient_letters_characterization (clues : Clues) (n : Nat) (f g : List Char)
    (hlc : dictGet clues "letter_count" = some (.vnum n)) (hn : 0 < n)
    (hf : dictGetD clues "first_letters" (.vstr []) = .vstr f)
    (hg : dictGetD clues "last_letters" (.vstr []) = .vstr g) :
    has_sufficient_letters clues =
      .ok (decide (n ≤ f.length + g.length ∨
        n - f.length - g.length ≤ clues.countP (fun kv => strStartsWith kv.1 "letter_"))) := by
  unfold has_sufficient_letters
  simp only [hlc, hf, hg]
  by_cases hcov : n ≤ f.length + g.length
  · simp [pyTruthyO, pyTruthy, hn.ne', pyStr, pyNum, hcov]
  · simp [pyTruthyO, pyTruthy, hn.ne', pyStr, pyNum, hcov]

/-- C2 witness at a store with two pinned middle letters. -/
theorem has_sufficient_letters_characterization_witness :
    has_sufficient_letters
      [("letter_count", PyVal.vnum 5), ("first_letters", PyVal.vstr "ab".toList),
       ("letter_3", PyVal.vstr ['c']), ("letter_4", PyVal.vstr ['d'])] =
      .ok (decide (5 ≤ ("ab".toList).length + ([] : List Char).length ∨
        5 - ("ab".toList).length - ([] : List Char).length ≤
          List.countP (fun kv => strStartsWith kv.1 "letter_")
            [("letter_count", PyVal.vnum 5), ("first_letters", PyVal.vstr "ab".toList),
             ("letter_3", PyVal.vstr ['c']), ("letter_4", PyVal.vstr ['d'])])) :=
  has_sufficient_letters_characterization _ 5 "ab".toList [] (by decide) (by decide)
    (by decide) (by decide)

/-- C2 counterexample: the claim as stated is false — with letter_count 3,
prefix "a", suffix "b" and no pinned individual-position clue at all, coverage
is 2 < 3 and the pinned-clue count is 0 < 1, so the claimed characterization
says false, yet the code returns true because its count
`sum(1 for key in clues.keys() if key.startswith('letter_'))` also counts the
`letter_count` key. -/
theorem has_sufficient_letters_counts_letter_count_key :
    has_sufficient_letters
      [("letter_count", PyVal.vnum 3), ("first_letters", PyVal.vstr ['a']),
       ("last_letters", PyVal.vstr ['b'])] = .ok true ∧
    ¬(3 ≤ 1 + 1) ∧
    List.countP (fun kv => strStartsWith kv.1 "letter_" && kv.1 != "letter_count")
      [("letter_count", PyVal.vnum 3), ("first_letters", PyVal.vstr ['a']),
       ("last_letters", PyVal.vstr ['b'])] = 0 := by decide

/-- C8: round-trip on canonical answers — "The word has 6 letters." yields
letter count 6, "Starts with 'bas'." yields first letters "bas", and
"The 4th letter is 'k'." yields the single pinned clue letter_4 = "k". -/
theorem interpreter_round_trip :
    extract_letter_count "The word has 6 letters.".toList = some 6 ∧
    extract_first_letters "Starts with 'bas'.".toList = some "bas".toList ∧
    extract_individual_letters "The 4th letter is 'k'.".toList =
      [("letter_4", PyVal.vstr ['k'])] := by decide

/-- Helper: flattening a list of singletons gives back the characters. -/
theorem flatten_map_singleton (l : List Char) :
    (l.map (fun c => [c])).flatten = l := by
  induction l with
  | nil => rfl
  | cons a t ih => simp [ih]

/-- Helper: the middle section of `reconstruct_word` is one character per
position when every pinned value in its range is a single-character string. -/
theorem middleLetters_ok (clues : Clues) (cnt : Nat) : ∀ lo : Nat,
    (∀ j, j < cnt → ∀ v, dictGet clues (letterKey (lo + j + 1)) = some v →
      ∃ c : Char, v = .vstr [c]) →
    ∃ w : List Char,
      middleLetters clues lo cnt = .ok (w.map (fun c => [c])) ∧
      w.length = cnt ∧
      ∀ j, j < cnt → ∀ c : Char,
        dictGet clues (letterKey (lo + j + 1)) = some (.vstr [c]) → w[j]? = some c := by
  induction cnt with
  | zero => exact fun lo _ => ⟨[], rfl, rfl, fun j hj => by omega⟩
  | succ m ih =>
    intro lo hp
    obtain ⟨w', hw', hlen', hchar'⟩ := ih (lo + 1) (fun j hj v hv => by
      refine hp (j + 1) (by omega) v ?_
      have : lo + (j + 1) + 1 = lo + 1 + j + 1 := by omega
      rw [this]
      exact hv)
    cases hvp : dictGet clues (letterKey (lo + 1)) with
    | none =>
      refine ⟨'?' :: w', ?_, by simp [hlen'], ?_⟩
      · show middleLetters clues lo (m + 1) = _
        unfold middleLetters
        rw [hvp, hw']
        rfl
      · intro j hj c hc
        cases j with
        | zero =>
          rw [show lo + 0 + 1 = lo + 1 by omega] at hc
          rw [hvp] at hc
          exact absurd hc (by simp)
        | succ j' =>
          have : lo + (j' + 1) + 1 = lo + 1 + j' + 1 := by omega
          rw [this] at hc
          simpa using hchar' j' (by omega) c hc
    | some v =>
      obtain ⟨c0, hc0⟩ := hp 0 (by omega) v (by rw [show lo + 0 + 1 = lo + 1 by omega]; exact hvp)
      subst hc0
      refine ⟨c0 :: w', ?_, by simp [hlen'], ?_⟩
      · show middleLetters clues lo (m + 1) = _
        unfold middleLetters
        rw [hvp, hw']
        rfl
      · intro j hj c hc
        cases j with
        | zero =>
          rw [show lo + 0 + 1 = lo + 1 by omega, hvp] at hc
          have : c0 = c := by
            have := Option.some_inj.mp hc
            simpa using this
          simp [this]
        | succ j' =>
          have : lo + (j' + 1) + 1 = lo + 1 + j' + 1 := by omega
          rw [this] at hc
          simpa using hchar' j' (by omega) c hc

/-- C1 (amended): with a positive letter_count, string prefix/suffix whose
combined length does not exceed the letter count, and pinned single-character
entries that do not conflict with the prefix or suffix where they overlap
them, `reconstruct_word` returns a word of length exactly letter_count whose
character at every pinned in-range position is the pinned letter. -/
theorem reconstruct_word_length_and_pins (clues : Clues) (n : Nat) (f g : List Char)
    (hlc : dictGet clues "letter_count" = some (.vnum n)) (hn : 0 < n)
    (hf : dictGetD clues "first_letters" (.vstr []) = .vstr f)
    (hg : dictGetD clues "last_letters" (.vstr []) = .vstr g)
    (hab : f.length + g.length ≤ n)
    (hsingle : ∀ i, i < n → pinnedSingleOK clues (i + 1) = true)
    (hagreef : ∀ i, i < n → pinAgreesFirst clues f (i + 1) = true)
    (hagreeg : ∀ i, i < n → pinAgreesLast clues n g (i + 1) = true) :
    ∃ w : List Char,
      reconstruct_word clues = .ok w ∧ w.length = n ∧
      ∀ i c, 1 ≤ i → i ≤ n →
        dictGet clues (letterKey i) = some (.vstr [c]) → w[i - 1]? = some c := by
  have hsingle' : ∀ i, 1 ≤ i → i ≤ n → ∀ v, dictGet clues (letterKey i) = some v →
      ∃ c : Char, v = .vstr [c] := by
    intro i h1 h2 v hv
    have hb := hsingle (i - 1) (by omega)
    rw [show i - 1 + 1 = i by omega] at hb
    unfold pinnedSingleOK at hb
    rw [hv] at hb
    match v, hb with
    | .vstr [c], _ => exact ⟨c, rfl⟩
  obtain ⟨wm, hwm, hwmlen, hwmchar⟩ :=
    middleLetters_ok clues (n - g.length - f.length) f.length (fun j hj v hv =>
      hsingle' (f.length + j + 1) (by omega) (by omega) v hv)
  refine ⟨f ++ wm ++ g, ?_, by simp [hwmlen]; omega, ?_⟩
  · unfold reconstruct_word
    simp only [hlc, hf, hg]
    simp [pyTruthyO, pyTruthy, hn.ne', pyStr, pyNum, hwm, flatten_map_singleton]
  · intro i c h1 hin hpin
    rw [List.append_assoc]
    by_cases hif : i - 1 < f.length
    · rw [List.getElem?_append, if_pos hif]
      have hb := hagreef (i - 1) (by omega)
      rw [show i - 1 + 1 = i by omega] at hb
      unfold pinAgreesFirst at hb
      rw [hpin] at hb
      simp [hif] at hb
      rw [List.getElem?_eq_getElem hif]
      exact congrArg some hb
    · by_cases him : i - 1 - f.length < wm.length
      · rw [List.getElem?_append, if_neg hif, List.getElem?_append, if_pos him]
        refine hwmchar (i - 1 - f.length) (by omega) c ?_
        rw [show f.length + (i - 1 - f.length) + 1 = i by omega]
        exact hpin
      · rw [List.getElem?_append, if_neg hif, List.getElem?_append, if_neg him]
        have hb := hagreeg (i - 1) (by omega)
        rw [show i - 1 + 1 = i by omega] at hb
        unfold pinAgreesLast at hb
        rw [hpin] at hb
        have hgi : n - g.length < i := by omega
        simp [hgi] at hb
        rw [show i - 1 - f.length - wm.length = i - 1 - (n - g.length) by omega]
        exact hb

/-- C1 witness at a concrete store with a pinned middle letter. -/
theorem reconstruct_word_length_and_pins_witness :
    ∃ w : List Char,
      reconstruct_word
        [("letter_count", PyVal.vnum 6), ("first_letters", PyVal.vstr "zo".toList),
         ("last_letters", PyVal.vstr "e".toList), ("letter_4", PyVal.vstr ['k'])] = .ok w ∧
      w.length = 6 ∧
      ∀ i c, 1 ≤ i → i ≤ 6 →
        dictGet
          [("letter_count", PyVal.vnum 6), ("first_letters", PyVal.vstr "zo".toList),
           ("last_letters", PyVal.vstr "e".toList), ("letter_4", PyVal.vstr ['k'])]
          (letterKey i) = some (.vstr [c]) → w[i - 1]? = some c :=
  reconstruct_word_length_and_pins _ 6 "zo".toList "e".toList (by decide) (by decide)
    (by decide) (by decide) (by decide) (by decide) (by decide) (by decide)

/-- C1 counterexample: the claim as stated is false — with letter_count 6,
prefix "zodi" and suffix "iee" (a conflict-free store: the one overlapping
position 4 carries the letter i in both, and there is no pinned entry at all),
`reconstruct_word` returns the 7-character word "zodiiee", not a word of
length 6. -/
theorem reconstruct_word_overlong_when_overlap :
    reconstruct_word
      [("letter_count", PyVal.vnum 6), ("first_letters", PyVal.vstr "zodi".toList),
       ("last_letters", PyVal.vstr "iee".toList)] = .ok "zodiiee".toList ∧
    ("zodiiee".toList).length = 7 ∧
    List.countP (fun kv => strStartsWith kv.1 "letter_" && kv.1 != "letter_count")
      [("letter_count", PyVal.vnum 6), ("first_letters", PyVal.vstr "zodi".toList),
       ("last_letters", PyVal.vstr "iee".toList)] = 0 ∧
    ("zodi".toList)[3]? = some 'i' ∧ ("iee".toList)[0]? = some 'i' := by decide

/-- Helper: head of a filtered `range'` is the least element satisfying the
predicate. -/
theorem filter_range'_head (P : Nat → Bool) (p : Nat) : ∀ len s : Nat,
    s ≤ p → p < s + len → P p = true →
    (∀ q, s ≤ q → q < p → P q = false) →
    ((List.range' s len).filter P).head? = some p := by
  intro len
  induction len with
  | zero => intro s h1 h2; omega
  | succ m ih =>
    intro s hsp hps hP hbefore
    rw [List.range'_succ]
    by_cases hsp' : s = p
    · subst hsp'
      simp [List.filter_cons, hP]
    · have hPs : P s = false := hbefore s le_rfl (by omega)
      simp only [List.filter_cons, hPs, Bool.false_eq_true, if_false]
      exact ih (s + 1) (by omega) (by omega) hP (fun q hq1 hq2 => hbefore q (by omega) hq2)

/-- C4: with letter_count, prefix and suffix set, combined coverage short of
the word, and an uncovered position in the middle range, the prompt planner
asks for the single letter at the lowest uncovered position, formatted with
the correct English ordinal. -/
theorem planner_asks_lowest_uncovered (clues : Clues) (n p : Nat) (f g : List Char)
    (hlc : dictGet clues "letter_count" = some (.vnum n)) (hn : 0 < n)
    (hf : dictGet clues "first_letters" = some (.vstr f)) (hfne : f ≠ [])
    (hg : dictGet clues "last_letters" = some (.vstr g)) (hgne : g ≠ [])
    (hab : f.length + g.length < n)
    (hlo : f.length + 1 ≤ p) (hhi : p ≤ n - g.length)
    (hunpinned : dictGet clues (letterKey p) = none)
    (hcovered : ∀ q, f.length + 1 ≤ q → q < p → (dictGet clues (letterKey q)).isSome = true) :
    get_next_prompt clues =
      some ("What is the ".toList ++ ((Nat.repr p).toList ++ englishOrdinalSuffix p) ++
        " letter?".toList) := by
  have hhead :
      (((List.range' f.length (n - g.length - f.length)).filter
        (fun i => (dictGet clues (letterKey (i + 1))).isNone)).map (· + 1)).head? = some p := by
    rw [List.head?_map]
    rw [filter_range'_head (fun i => (dictGet clues (letterKey (i + 1))).isNone) (p - 1)
      (n - g.length - f.length) f.length (by omega) (by omega)
      (by
        show (dictGet clues (letterKey (p - 1 + 1))).isNone = true
        rw [show p - 1 + 1 = p by omega, hunpinned]
        rfl)
      (fun q hq1 hq2 => by
        show (dictGet clues (letterKey (q + 1))).isNone = false
        obtain ⟨v, hv⟩ := Option.isSome_iff_exists.mp (hcovered (q + 1) (by omega) (by omega))
        rw [hv]
        rfl)]
    simp only [Option.map_some']
    rw [show p - 1 + 1 = p by omega]
  unfold get_next_prompt get_strategic_prompt
  rw [dictGet_ne_nil hlc]
  simp only [hlc, dictGetD, hf, hg, Option.getD_some]
  have hnotcov : ¬(f.length + g.length ≥ n) := by omega
  rcases hmiss :
      ((List.range' f.length (n - g.length - f.length)).filter
        (fun i => (dictGet clues (letterKey (i + 1))).isNone)).map (· + 1) with _ | ⟨p', rest⟩
  · rw [hmiss] at hhead
    simp at hhead
  · rw [hmiss] at hhead
    simp only [List.head?_cons, Option.some_inj] at hhead
    subst hhead
    simp [pyTruthyO, pyTruthy, pyStr, pyNum, hn.ne', hfne, hgne, hnotcov, hmiss, qNthLetter,
      ordinalStr_eq_english]

/-- C4 witness: positions 3..5 uncovered, the planner asks for the 3rd
letter. -/
theorem planner_asks_lowest_uncovered_witness :
    get_next_prompt
      [("letter_count", PyVal.vnum 6), ("first_letters", PyVal.vstr "zo".toList),
       ("last_letters", PyVal.vstr "e".toList)] =
      some ("What is the ".toList ++ ((Nat.repr 3).toList ++ englishOrdinalSuffix 3) ++
        " letter?".toList) :=
  planner_asks_lowest_uncovered _ 6 3 "zo".toList "e".toList (by decide) (by decide)
    (by decide) (by decide) (by decide) (by decide) (by decide) (by decide) (by decide)
    (by decide)
    (by intro q hq1 hq2; exact absurd (hq1.trans_lt hq2) (lt_irrefl 3))

/-- C9: when no pattern of the requested clue type matches the answer, the
interpreter returns the empty update set, and merging an empty update set
into any clue store leaves the store unchanged. -/
theorem unparsed_answer_leaves_store_unchanged (response : List Char)
    (expected_count : Option Nat) (clue_type : Option String)
    (hnone : noPatternMatches clue_type expected_count response) :
    parse_response_with_expected_count response expected_count clue_type = [] ∧
      ∀ clues : Clues, dictUpdate clues [] = clues := by
  obtain ⟨hcount, hfirst, hlast, hind⟩ := hnone
  refine ⟨?_, fun clues => rfl⟩
  have st1 : (if clue_type = none ∨ clue_type = some "letter_count" then
      match extract_letter_count response with
      | some n => if n ≠ 0 then dictSet [] "letter_count" (.vnum n) else []
      | none => ([] : Clues)
    else []) = [] := by
    by_cases h1 : clue_type = none ∨ clue_type = some "letter_count"
    · rw [if_pos h1, hcount h1]
    · rw [if_neg h1]
  have st2 : (if clue_type = some "first_letters" ∨ clue_type = none then
      match firstLettersResult response expected_count with
      | some l => if l ≠ [] then dictSet [] "first_letters" (.vstr l) else []
      | none => ([] : Clues)
    else []) = [] := by
    by_cases h2 : clue_type = some "first_letters" ∨ clue_type = none
    · rw [if_pos h2]
      cases hfl : firstLettersResult response expected_count with
      | none => rfl
      | some l =>
        have hl := hfirst h2.symm
        rw [hfl] at hl
        simp [truthyS] at hl
        simp [hl]
    · rw [if_neg h2]
  have st3 : (if clue_type = some "last_letters" ∨ clue_type = none then
      match lastLettersResult response expected_count with
      | some l => if l ≠ [] then dictSet [] "last_letters" (.vstr l) else []
      | none => ([] : Clues)
    else []) = [] := by
    by_cases h3 : clue_type = some "last_letters" ∨ clue_type = none
    · rw [if_pos h3]
      cases hll : lastLettersResult response expected_count with
      | none => rfl
      | some l =>
        have hl := hlast h3.symm
        rw [hll] at hl
        simp [truthyS] at hl
        simp [hl]
    · rw [if_neg h3]
  have st4 : (if clue_type = none ∨ clue_type = some "individual" then
      dictUpdate [] (extract_individual_letters response)
    else []) = [] := by
    by_cases h4 : clue_type = none ∨ clue_type = some "individual"
    · rw [if_pos h4, hind h4]
      rfl
    · rw [if_neg h4]
  simp only [parse_response_with_expected_count]
  rw [st1, st2, st3, st4]

/-- C9 witness: a refusal answer with the first-letters clue type requested. -/
theorem unparsed_answer_leaves_store_unchanged_witness :
    parse_response_with_expected_count "I shall not reveal it".toList none
      (some "first_letters") = [] :=
  (unparsed_answer_leaves_store_unchanged "I shall not reveal it".toList none
    (some "first_letters")
    ⟨fun _ => by decide, fun _ => by decide, fun _ => by decide, fun _ => by decide⟩).1

/-- Helper: ASCII lowercasing does not create or destroy digit characters. -/
theorem lowerChar_isDigit (c : Char) : (lowerChar c).isDigit = c.isDigit := by
  unfold lowerChar
  split <;> rfl

/-- Helper: `firstSome` of an everywhere-`none` function is `none`. -/
theorem firstSome_none (f : Nat → Option Caps) (l : List Nat)
    (h : ∀ x ∈ l, f x = none) : firstSome f l = none := by
  induction l with
  | nil => rfl
  | cons a t ih =>
    unfold firstSome
    rw [h a (by simp)]
    exact ih (fun x hx => h x (by simp [hx]))

/-- Helper: `takeWhile` of a predicate false everywhere is empty. -/
theorem takeWhile_nil_of_false {p : Char → Bool} {l : List Char}
    (h : ∀ c ∈ l, p c = false) : l.takeWhile p = [] := by
  cases l with
  | nil => rfl
  | cons a t => simp [List.takeWhile_cons, h a (by simp)]

/-- Helper: the matcher only ever calls its continuation on suffix material of
the subject, so an everywhere-`none` continuation gives `none`. -/
theorem matchRE_none_of_k_none (r : RE) : ∀ (s : List Char) (caps : Caps)
    (k : List Char → Caps → Option Caps),
    (∀ s' caps', (∀ c ∈ s', c ∈ s) → k s' caps' = none) → matchRE r s caps k = none := by
  induction r with
  | eps =>
    intro s caps k hk
    exact hk s caps (fun c hc => hc)
  | lit c =>
    intro s caps k hk
    cases s with
    | nil => rfl
    | cons x rest =>
      show (if x = c then k rest caps else none) = none
      split
      · exact hk rest caps (fun d hd => by simp [hd])
      · rfl
  | cilit c =>
    intro s caps k hk
    cases s with
    | nil => rfl
    | cons x rest =>
      show (if lowerChar x = c then k rest caps else none) = none
      split
      · exact hk rest caps (fun d hd => by simp [hd])
      · rfl
  | cls cc =>
    intro s caps k hk
    cases s with
    | nil => rfl
    | cons x rest =>
      show (if cc.eval x then k rest caps else none) = none
      split
      · exact hk rest caps (fun d hd => by simp [hd])
      · rfl
  | seq r1 r2 ih1 ih2 =>
    intro s caps k hk
    refine ih1 s caps _ (fun s1 caps1 hs1 => ?_)
    exact ih2 s1 caps1 k (fun s2 caps2 hs2 => hk s2 caps2 (fun c hc => hs1 c (hs2 c hc)))
  | alt r1 r2 ih1 ih2 =>
    intro s caps k hk
    show (matchRE r1 s caps k).orElse _ = none
    rw [ih1 s caps k hk]
    show matchRE r2 s caps k = none
    exact ih2 s caps k hk
  | opt r ih =>
    intro s caps k hk
    show (matchRE r s caps k).orElse _ = none
    rw [ih s caps k hk]
    show k s caps = none
    exact hk s caps (fun c hc => hc)
  | rep1 cc =>
    intro s caps k hk
    exact firstSome_none _ _ (fun L _ =>
      hk (s.drop L) caps (fun c hc => List.drop_subset L s hc))
  | rep0 cc =>
    intro s caps k hk
    exact firstSome_none _ _ (fun L _ =>
      hk (s.drop L) caps (fun c hc => List.drop_subset L s hc))
  | grp i r ih =>
    intro s caps k hk
    exact ih s caps _ (fun s1 caps1 hs1 => hk s1 _ hs1)
  | eos =>
    intro s caps k hk
    show (if s = [] then k s caps else none) = none
    split
    · exact hk s caps (fun c hc => hc)
    · rfl

/-- Helper: a pattern that mandates a digit cannot match inside a digit-free
subject, whatever the continuation. -/
theorem matchRE_none_of_mand (r : RE) : ∀ (s : List Char) (caps : Caps)
    (k : List Char → Caps → Option Caps), r.mand = true →
    (∀ c ∈ s, c.isDigit = false) → matchRE r s caps k = none := by
  induction r with
  | eps => intro s caps k hmand _; simp [RE.mand] at hmand
  | lit c =>
    intro s caps k hmand hdf
    cases s with
    | nil => rfl
    | cons x rest =>
      show (if x = c then k rest caps else none) = none
      rw [if_neg]
      intro hx
      subst hx
      simp only [RE.mand] at hmand
      rw [hdf x (by simp)] at hmand
      exact Bool.false_ne_true hmand
  | cilit c =>
    intro s caps k hmand hdf
    cases s with
    | nil => rfl
    | cons x rest =>
      show (if lowerChar x = c then k rest caps else none) = none
      rw [if_neg]
      intro hx
      simp only [RE.mand] at hmand
      rw [← hx, lowerChar_isDigit, hdf x (by simp)] at hmand
      exact Bool.false_ne_true hmand
  | cls cc =>
    intro s caps k hmand hdf
    have hcc : cc = .digit := by
      cases cc <;> simp [RE.mand] at hmand ⊢
    subst hcc
    cases s with
    | nil => rfl
    | cons x rest =>
      show (if CharCls.eval .digit x then k rest caps else none) = none
      rw [show CharCls.eval .digit x = x.isDigit from rfl, hdf x (by simp)]
      rfl
  | seq r1 r2 ih1 ih2 =>
    intro s caps k hmand hdf
    simp only [RE.mand, Bool.or_eq_true] at hmand
    rcases hmand with h1 | h2
    · exact ih1 s caps _ h1 hdf
    · refine matchRE_none_of_k_none r1 s caps _ (fun s1 caps1 hs1 => ?_)
      exact ih2 s1 caps1 k h2 (fun c hc => hdf c (hs1 c hc))
  | alt r1 r2 ih1 ih2 =>
    intro s caps k hmand hdf
    simp only [RE.mand, Bool.and_eq_true] at hmand
    obtain ⟨h1, h2⟩ := hmand
    show (matchRE r1 s caps k).orElse _ = none
    rw [ih1 s caps k h1 hdf]
    show matchRE r2 s caps k = none
    exact ih2 s caps k h2 hdf
  | opt r ih => intro s caps k hmand _; simp [RE.mand] at hmand
  | rep1 cc =>
    intro s caps k hmand hdf
    have hcc : cc = .digit := by
      cases cc <;> simp [RE.mand] at hmand ⊢
    subst hcc
    show firstSome _ (lensDesc (s.takeWhile (CharCls.eval .digit)).length 1) = none
    rw [takeWhile_nil_of_false (p := CharCls.eval .digit) (fun c hc => hdf c hc)]
    rfl
  | rep0 cc => intro s caps k hmand _; simp [RE.mand] at hmand
  | grp i r ih =>
    intro s caps k hmand hdf
    exact ih s caps _ hmand hdf
  | eos => intro s caps k hmand _; simp [RE.mand] at hmand

/-- Helper: `re.search` with a digit-mandating pattern fails on digit-free
subjects. -/
theorem reSearch_none_of_mand (r : RE) (hmand : r.mand = true) :
    ∀ s : List Char, (∀ c ∈ s, c.isDigit = false) → reSearch r s = none := by
  intro s
  induction s with
  | nil =>
    intro hdf
    exact matchRE_none_of_mand r [] [] _ hmand hdf
  | cons x t ih =>
    intro hdf
    unfold reSearch
    rw [matchRE_none_of_mand r (x :: t) [] _ hmand hdf]
    exact ih (fun c hc => hdf c (by simp [hc]))

/-- Helper: digit-freeness carries over to the lowercased copy of an answer. -/
theorem map_lowerChar_digit_free {s : List Char} (h : ∀ c ∈ s, c.isDigit = false) :
    ∀ c ∈ s.map lowerChar, c.isDigit = false := by
  intro c hc
  obtain ⟨d, hd, rfl⟩ := List.mem_map.mp hc
  rw [lowerChar_isDigit]
  exact h d hd

/-- C7 (amended): the word-form qualifier rejection — for every answer with no
digit character, in which every occurrence of a count word directly before
" letters" is qualified (whenever "(word) letters" occurs in the lowercased
answer, "first (word) letters" or "last (word) letters" occurs too), and whose
stripped lowercased text is not itself a bare count word, the letter-count
extractor returns nothing.  (In digit form the qualifier is not rejected; see
the counterexample.) -/
theorem letter_count_rejects_qualified_word_forms (response : List Char)
    (hdf : ∀ c ∈ response, c.isDigit = false)
    (hqual : ∀ wn ∈ wordToNumber,
      hasSub (wn.1 ++ " letters".toList) (response.map lowerChar) = true →
      hasSub ("first ".toList ++ wn.1 ++ " letters".toList) (response.map lowerChar) = true ∨
      hasSub ("last ".toList ++ wn.1 ++ " letters".toList) (response.map lowerChar) = true)
    (hbare : ∀ wn ∈ wordToNumber, pyStrip (response.map lowerChar) ≠ wn.1) :
    extract_letter_count response = none := by
  have hdfl := map_lowerChar_digit_free hdf
  have h1 := reSearch_none_of_mand patL1 (by decide) _ hdfl
  have h2 := reSearch_none_of_mand patL2 (by decide) _ hdfl
  have h3 := reSearch_none_of_mand patL3 (by decide) _ hdfl
  have h4 := reSearch_none_of_mand patL4 (by decide) _ hdfl
  have h5 := reSearch_none_of_mand patL5 (by decide) _ hdfl
  have hpats : tryPatterns [(patL1, 1), (patL2, 1), (patL3, 1), (patL4, 1), (patL5, 1)]
      (response.map lowerChar) = none := by
    simp only [tryPatterns, h1, h2, h3, h4, h5]
  have hword : wordToNumber.findSome? (fun wn =>
      if hasSub (wn.1 ++ " letters".toList) (response.map lowerChar) &&
         !hasSub ("first ".toList ++ wn.1 ++ " letters".toList) (response.map lowerChar) &&
         !hasSub ("last ".toList ++ wn.1 ++ " letters".toList) (response.map lowerChar)
      then some wn.2 else none) = none := by
    refine List.findSome?_eq_none_iff.mpr (fun wn hwn => ?_)
    rw [if_neg]
    intro hcond
    simp only [Bool.and_eq_true, Bool.not_eq_true'] at hcond
    obtain ⟨⟨hin, hnf⟩, hnl⟩ := hcond
    rcases hqual wn hwn hin with hq | hq
    · rw [hq] at hnf; exact Bool.noConfusion hnf
    · rw [hq] at hnl; exact Bool.noConfusion hnl
  have hbareN : reFullmatch patBareNum (response.map lowerChar) = none :=
    matchRE_none_of_mand patBareNum _ [] _ (by decide) hdfl
  have hstrip : wordToNumber.findSome? (fun wn =>
      if pyStrip (response.map lowerChar) = wn.1 then some wn.2 else none) = none :=
    List.findSome?_eq_none_iff.mpr (fun wn hwn => by
      rw [if_neg (hbare wn hwn)])
  simp only [extract_letter_count, hpats, hword, hbareN, hstrip, Option.none_bind]

/-- C7 witness: "The first four letters are ZODI" contains the count word only
inside the qualified phrase and no digits, and yields no letter count. -/
theorem letter_count_rejects_qualified_word_forms_witness :
    extract_letter_count "The first four letters are ZODI".toList = none :=
  letter_count_rejects_qualified_word_forms "The first four letters are ZODI".toList
    (by decide) (by decide) (by decide)

/-- C7 counterexample: the claim as stated is false for digit-form numbers —
in "The first 4 letters are ZODI" the only number is the digit 4 inside the
qualifying phrase "first 4 letters" (and no count word occurs before
" letters"), yet the extractor returns 4 as the letter count. -/
theorem letter_count_accepts_qualified_digit_form :
    extract_letter_count "The first 4 letters are ZODI".toList = some 4 ∧
    ("The first 4 letters are ZODI".toList).filter Char.isDigit = ['4'] ∧
    hasSub "first 4 letters".toList
      ("The first 4 letters are ZODI".toList.map lowerChar) = true ∧
    (wordToNumber.all fun wn =>
      !hasSub (wn.1 ++ " letters".toList)
        ("The first 4 letters are ZODI".toList.map lowerChar)) = true := by decide

/-! Lemmas for the word builder `_direct_concatenation` (claim C10). -/

theorem fillFirst_length (n : Nat) (f : List Char) : ∀ (w : List PyVal) (i : Nat),
    (fillFirst n w i f).length = w.length := by
  induction f with
  | nil => intro w i; rfl
  | cons c cs ih =>
    intro w i
    show (fillFirst n (if i < n then w.set i (.vstr [c]) else w) (i + 1) cs).length = _
    rw [ih]
    split <;> simp

theorem fillLast_length (n b : Nat) (g : List Char) : ∀ (w : List PyVal) (j0 : Nat),
    (fillLast n b w j0 g).length = w.length := by
  induction g with
  | nil => intro w j0; rfl
  | cons c cs ih =>
    intro w j0
    show (fillLast n b _ (j0 + 1) cs).length = _
    rw [ih]
    split <;> simp

theorem applyPin_length (n : Nat) (w : List PyVal) (kv : String × PyVal) :
    (applyPin n w kv).length = w.length := by
  unfold applyPin
  split
  · split <;> first | rfl | (split <;> simp)
  · rfl

theorem fillPins_length (n : Nat) : ∀ (cl : List (String × PyVal)) (w : List PyVal),
    (fillPins n w cl).length = w.length := by
  intro cl
  induction cl with
  | nil => intro w; rfl
  | cons kv rest ih =>
    intro w
    show (fillPins n (applyPin n w kv) rest).length = _
    rw [ih, applyPin_length]

theorem fillCommon_length : ∀ (w : List PyVal) (i : Nat),
    (fillCommon w i).length = w.length := by
  intro w
  induction w with
  | nil => intro i; rfl
  | cons v t ih =>
    intro i
    show (_ :: fillCommon t (i + 1)).length = _
    simp [ih]

theorem fillFirst_untouched (n : Nat) (f : List Char) : ∀ (w : List PyVal) (i j : Nat),
    (j < i ∨ i + f.length ≤ j) → (fillFirst n w i f)[j]? = w[j]? := by
  induction f with
  | nil => intro w i j _; rfl
  | cons c cs ih =>
    intro w i j hj
    show (fillFirst n (if i < n then w.set i (.vstr [c]) else w) (i + 1) cs)[j]? = w[j]?
    rw [ih _ (i + 1) j (by simp at hj ⊢; omega)]
    split
    · refine List.getElem?_set_ne ?_
      simp at hj
      omega
    · rfl

theorem fillLast_untouched (n b : Nat) (g : List Char) : ∀ (w : List PyVal) (j0 j : Nat),
    ((j : Int) < (n : Int) - (b : Int) + (j0 : Int)) → (fillLast n b w j0 g)[j]? = w[j]? := by
  induction g with
  | nil => intro w j0 j _; rfl
  | cons c cs ih =>
    intro w j0 j hj
    show (fillLast n b _ (j0 + 1) cs)[j]? = w[j]?
    rw [ih _ (j0 + 1) j (by push_cast at hj ⊢; omega)]
    split
    · rename_i hpos
      obtain ⟨hp0, hpn⟩ := hpos
      refine List.getElem?_set_ne ?_
      omega
    · rfl

theorem fillPins_untouched (n : Nat) : ∀ (cl : List (String × PyVal)) (w : List PyVal) (j : Nat),
    (∀ kv ∈ cl, strStartsWith kv.1 "letter_" = true → letterKeyIdx kv.1 ≠ some ((j : Int) + 1)) →
    (fillPins n w cl)[j]? = w[j]? := by
  intro cl
  induction cl with
  | nil => intro w j _; rfl
  | cons kv rest ih =>
    intro w j hkv
    show (fillPins n (applyPin n w kv) rest)[j]? = w[j]?
    rw [ih _ j (fun kv' h' => hkv kv' (by simp [h']))]
    unfold applyPin
    split
    · rename_i hsw
      cases hidx : letterKeyIdx kv.1 with
      | none => rfl
      | some idx =>
        have hne := hkv kv (by simp) hsw
        rw [hidx] at hne
        have hii : idx ≠ (j : Int) + 1 := fun h => hne (by rw [h])
        show (if 0 ≤ idx - 1 ∧ idx - 1 < (n : Int) then
            w.set (idx - 1).toNat kv.2 else w)[j]? = w[j]?
        split
        · rename_i hguard
          obtain ⟨h0, hn'⟩ := hguard
          refine List.getElem?_set_ne ?_
          omega
        · rfl
    · rfl

theorem fillCommon_fills : ∀ (w : List PyVal) (i j : Nat),
    w[j]? = some (.vstr ['?']) →
    (fillCommon w i)[j]? = some (.vstr [commonLetters.getD ((i + j) % 10) 'a']) := by
  intro w
  induction w with
  | nil => intro i j h; simp at h
  | cons v t ih =>
    intro i j h
    cases j with
    | zero =>
      simp at h
      subst h
      simp [fillCommon]
    | succ j' =>
      have ht := ih (i + 1) j' (by simpa using h)
      simp only [fillCommon, List.getElem?_cons_succ]
      rw [show i + (j' + 1) = (i + 1) + j' by omega]
      exact ht

theorem fillFirst_single (n : Nat) (f : List Char) : ∀ (w : List PyVal) (i : Nat),
    (∀ v ∈ w, ∃ c, v = PyVal.vstr [c]) → ∀ v ∈ fillFirst n w i f, ∃ c, v = PyVal.vstr [c] := by
  induction f with
  | nil => intro w i hw; exact hw
  | cons c cs ih =>
    intro w i hw
    refine ih _ (i + 1) ?_
    intro v hv
    split at hv
    · rcases List.mem_or_eq_of_mem_set hv with h | h
      · exact hw v h
      · exact ⟨c, h⟩
    · exact hw v hv

theorem fillLast_single (n b : Nat) (g : List Char) : ∀ (w : List PyVal) (j0 : Nat),
    (∀ v ∈ w, ∃ c, v = PyVal.vstr [c]) → ∀ v ∈ fillLast n b w j0 g, ∃ c, v = PyVal.vstr [c] := by
  induction g with
  | nil => intro w j0 hw; exact hw
  | cons c cs ih =>
    intro w j0 hw
    refine ih _ (j0 + 1) ?_
    intro v hv
    split at hv
    · rcases List.mem_or_eq_of_mem_set hv with h | h
      · exact hw v h
      · exact ⟨c, h⟩
    · exact hw v hv

theorem fillPins_single (n : Nat) : ∀ (cl : List (String × PyVal)) (w : List PyVal),
    (∀ kv ∈ cl, pinValueOK n kv = true) →
    (∀ v ∈ w, ∃ c, v = PyVal.vstr [c]) → ∀ v ∈ fillPins n w cl, ∃ c, v = PyVal.vstr [c] := by
  intro cl
  induction cl with
  | nil => intro w _ hw; exact hw
  | cons kv rest ih =>
    intro w hok hw
    refine ih _ (fun kv' h' => hok kv' (by simp [h'])) ?_
    intro v hv
    unfold applyPin at hv
    split at hv
    · rename_i hsw
      have hthis := hok kv (by simp)
      unfold pinValueOK at hthis
      rw [if_pos hsw] at hthis
      cases hidx : letterKeyIdx kv.1 with
      | none => rw [hidx] at hv; exact hw v hv
      | some idx =>
        rw [hidx] at hthis
        have hthis2 : (if 0 ≤ idx - 1 ∧ idx - 1 < (n : Int) then
            (match kv.2 with | PyVal.vstr [_] => true | _ => false)
          else true) = true := hthis
        rw [hidx] at hv
        have hv2 : v ∈ (if 0 ≤ idx - 1 ∧ idx - 1 < (n : Int) then
            w.set (idx - 1).toNat kv.2 else w) := hv
        clear hv
        rename' hv2 => hv
        split at hv
        · rename_i hguard
          rw [if_pos hguard] at hthis2
          rcases List.mem_or_eq_of_mem_set hv with h | h
          · exact hw v h
          · subst h
            match kv.2, hthis2 with
            | .vstr [c], _ => exact ⟨c, rfl⟩
        · exact hw v hv
    · exact hw v hv

theorem fillCommon_mem : ∀ (w : List PyVal) (i : Nat) (v : PyVal), v ∈ fillCommon w i →
    (v ∈ w ∧ v ≠ .vstr ['?']) ∨ ∃ m, v = .vstr [commonLetters.getD (m % 10) 'a'] := by
  intro w
  induction w with
  | nil => intro i v hv; simp [fillCommon] at hv
  | cons v0 t ih =>
    intro i v hv
    rcases List.mem_cons.mp hv with h | h
    · by_cases h0 : v0 = PyVal.vstr ['?']
      · rw [if_pos h0] at h
        exact Or.inr ⟨i, h⟩
      · rw [if_neg h0] at h
        subst h
        exact Or.inl ⟨List.mem_cons_self .., h0⟩
    · rcases ih (i + 1) v h with ⟨hm, hne⟩ | hp
      · exact Or.inl ⟨List.mem_cons_of_mem _ hm, hne⟩
      · exact Or.inr hp

theorem pyJoin_singles : ∀ (w : List PyVal),
    (∀ v ∈ w, ∃ c, v = PyVal.vstr [c]) →
    ∃ r : List Char, pyJoin w = .ok r ∧ r.length = w.length ∧
      (∀ (j : Nat) (c : Char), w[j]? = some (PyVal.vstr [c]) → r[j]? = some c) ∧
      (∀ c ∈ r, PyVal.vstr [c] ∈ w) := by
  intro w
  induction w with
  | nil => exact fun _ => ⟨[], rfl, rfl, by simp, by simp⟩
  | cons v t ih =>
    intro hw
    obtain ⟨c0, rfl⟩ := hw v (by simp)
    obtain ⟨r', hr', hlen, hpos, hmem⟩ := ih (fun v' h' => hw v' (by simp [h']))
    refine ⟨c0 :: r', ?_, by simp [hlen], ?_, ?_⟩
    · show (match pyStr (PyVal.vstr [c0]), pyJoin t with
        | .ok s, .ok r => Except.ok (s ++ r)
        | _, _ => .error ()) = .ok (c0 :: r')
      rw [hr']
      rfl
    · intro j c hj
      cases j with
      | zero =>
        simp at hj
        simp [hj]
      | succ j' =>
        simp only [List.getElem?_cons_succ] at hj ⊢
        exact hpos j' c hj
    · intro c hc
      rcases List.mem_cons.mp hc with h | h
      · subst h
        exact List.mem_cons_self ..
      · exact List.mem_cons_of_mem _ (hmem c h)

/-- C10: for every store with a positive letter_count, string prefix/suffix
slots, and in-range pinned values that are single characters, the low-resource
word builder returns a word of length exactly letter_count with no placeholder
(prefix/suffix overhang is clamped and malformed or out-of-range letter keys
are ignored by construction), and every position fixed by no clue carries the
frequency-pool letter selected by position modulo 10. -/
theorem direct_concatenation_complete (clues : Clues) (n : Nat) (f g : List Char)
    (hlc : dictGet clues "letter_count" = some (.vnum n)) (hn : 0 < n)
    (hf : dictGetD clues "first_letters" (.vstr []) = .vstr f)
    (hg : dictGetD clues "last_letters" (.vstr []) = .vstr g)
    (hok : ∀ kv ∈ clues, pinValueOK n kv = true) :
    ∃ w : List Char,
      direct_concatenation clues = some w ∧ w.length = n ∧
      (∀ c ∈ w, c ≠ '?') ∧
      ∀ j, j < n → f.length ≤ j → (j : Int) < (n : Int) - (g.length : Int) →
        (∀ kv ∈ clues, strStartsWith kv.1 "letter_" = true →
          letterKeyIdx kv.1 ≠ some ((j : Int) + 1)) →
        w[j]? = some (commonLetters.getD (j % 10) 'a') := by
  have hpool : ∀ m' < 10, commonLetters.getD m' 'a' ≠ '?' := by decide
  set word3 := fillPins n
    (fillLast n g.length (fillFirst n (List.replicate n (PyVal.vstr ['?'])) 0 f) 0 g) clues
    with hw3
  have hlen3 : word3.length = n := by
    rw [hw3, fillPins_length, fillLast_length, fillFirst_length, List.length_replicate]
  have hsingle3 : ∀ v ∈ word3, ∃ c, v = PyVal.vstr [c] := by
    rw [hw3]
    refine fillPins_single n clues _ hok ?_
    refine fillLast_single n g.length g _ 0 ?_
    refine fillFirst_single n f _ 0 ?_
    intro v hv
    rw [List.eq_of_mem_replicate hv]
    exact ⟨'?', rfl⟩
  have huf : ∀ j, j < n → f.length ≤ j → (j : Int) < (n : Int) - (g.length : Int) →
      (∀ kv ∈ clues, strStartsWith kv.1 "letter_" = true →
        letterKeyIdx kv.1 ≠ some ((j : Int) + 1)) →
      word3[j]? = some (PyVal.vstr ['?']) := by
    intro j hj hjf hjg hnopin
    rw [hw3, fillPins_untouched n clues _ j hnopin,
      fillLast_untouched n g.length g _ 0 j (by push_cast; omega),
      fillFirst_untouched n f _ 0 j (Or.inr (by omega))]
    simp [List.getElem?_replicate, hj]
  have hstep : direct_concatenation clues =
      (match direct_concatenation_aux clues with
       | .ok r => r
       | .error _ => none) := rfl
  have haux : direct_concatenation_aux clues =
      (if !word3.contains (PyVal.vstr ['?']) then
        match pyJoin word3 with
        | .ok r => .ok (some r)
        | .error e => .error e
      else
        match pyJoin (fillCommon word3 0) with
        | .ok r => .ok (some r)
        | .error e => .error e) := by
    unfold direct_concatenation_aux
    simp [hlc, hf, hg, pyTruthyO, pyTruthy, hn.ne', pyStr, pyNum, hw3]
  by_cases hcont : word3.contains (PyVal.vstr ['?']) = true
  · obtain ⟨r, hr, hrlen, hrpos, hrmem⟩ :=
      pyJoin_singles (fillCommon word3 0) (by
        intro v hv
        rcases fillCommon_mem word3 0 v hv with ⟨hm, _⟩ | ⟨m, hm⟩
        · exact hsingle3 v hm
        · exact ⟨_, hm⟩)
    refine ⟨r, ?_, ?_, ?_, ?_⟩
    · rw [hstep, haux, hcont]
      simp [hr]
    · rw [hrlen, fillCommon_length, hlen3]
    · intro c hc
      rcases fillCommon_mem word3 0 _ (hrmem c hc) with ⟨_, hne⟩ | ⟨m, hm⟩
      · intro hq
        exact hne (by rw [hq])
      · intro hq
        have := hpool (m % 10) (Nat.mod_lt m (by norm_num))
        apply this
        have := PyVal.vstr.inj hm
        rw [hq] at this
        exact (List.cons.inj this).1.symm
    · intro j hj hjf hjg hnopin
      have h4 := fillCommon_fills word3 0 j (huf j hj hjf hjg hnopin)
      rw [Nat.zero_add] at h4
      exact hrpos j _ h4
  · obtain ⟨r, hr, hrlen, hrpos, hrmem⟩ := pyJoin_singles word3 hsingle3
    have hcf : word3.contains (PyVal.vstr ['?']) = false := Bool.eq_false_iff.mpr hcont
    refine ⟨r, ?_, ?_, ?_, ?_⟩
    · rw [hstep, haux, hcf]
      simp [hr]
    · rw [hrlen, hlen3]
    · intro c hc hq
      subst hq
      exact absurd (List.elem_eq_true_of_mem (hrmem _ hc)) hcont
    · intro j hj hjf hjg hnopin
      have hm := huf j hj hjf hjg hnopin
      have hmem : PyVal.vstr ['?'] ∈ word3 := by
        obtain ⟨hb, he⟩ := List.getElem?_eq_some_iff.mp hm
        exact he ▸ List.getElem_mem hb
      exact absurd (List.elem_eq_true_of_mem hmem) hcont

/-- C10 witness: overlong prefix, out-of-range pin, and a pool-filled middle
position. -/
theorem direct_concatenation_complete_witness :
    ∃ w : List Char,
      direct_concatenation
        [("letter_count", PyVal.vnum 5), ("first_letters", PyVal.vstr "abcdefg".toList),
         ("letter_9", PyVal.vstr ['z'])] = some w ∧ w.length = 5 ∧
      (∀ c ∈ w, c ≠ '?') ∧
      ∀ j, j < 5 → ("abcdefg".toList).length ≤ j →
        (j : Int) < (5 : Int) - (([] : List Char).length : Int) →
        (∀ kv ∈ [("letter_count", PyVal.vnum 5), ("first_letters", PyVal.vstr "abcdefg".toList),
           ("letter_9", PyVal.vstr ['z'])], strStartsWith kv.1 "letter_" = true →
          letterKeyIdx kv.1 ≠ some ((j : Int) + 1)) →
        w[j]? = some (commonLetters.getD (j % 10) 'a') :=
  direct_concatenation_complete _ 5 "abcdefg".toList [] (by decide) (by decide) (by decide)
    (by decide) (by decide)
